import Mathlib

/-!
Verification of the rDNS iterative resolver core against its specification.

The development shallowly embeds the Rust sources (`src/rdns/records.rs`,
`src/rdns/domain_name.rs`, `src/rdns/util.rs`, `src/rdns/dns.rs`):

* bytes are `Nat` values; every read of a `u8` applies `% 256` (a `&[u8]`
  element is below 256), every write of a machine integer is emitted as its
  big-endian digits, so `as u16` / `as u8` casts become `% 2 ^ 16` / `% 256`;
* Rust `String` labels are byte lists (`List Nat`); joining with `'.'`
  appends byte 46, exactly as UTF-8 does;
* the fallible cursor readers return `Option`; the recursive name decoder,
  whose Rust original is not structurally terminating, takes explicit fuel
  and distinguishes running out of fuel (`PRes.fuel`) from a decode error
  (`PRes.fail`);
* the stateful event loop of `Rdns::start` becomes a pure step function on
  an explicit server state, with the wall clock, the datagram source
  address and every random draw passed in as parameters; an `Option` result
  models the run-time aborts of unchecked indexing/unwrapping.
-/

/-- One IP address, as `std::net::IpAddr`: a v4 address is its `u32` value,
a v6 address its `u128` value. -/
inductive IpAddr where
  | v4 (a : Nat)
  | v6 (a : Nat)
deriving DecidableEq, Repr

/-- `std::net::SocketAddr`: an IP address plus a port. -/
structure SockAddr where
  ip : IpAddr
  port : Nat
deriving DecidableEq, Repr

/-- `domain_name.rs`: `pub type DomainName = Vec<String>`; a label is the
byte sequence of the Rust `String`. -/
abbrev DomainName := List (List Nat)

/-- `records.rs` `DNSHeader`: all fields are machine integers, embedded as
`Nat` (`id`, counts: `u16`; flag fields: `u8`). -/
structure DNSHeader where
  id : Nat
  qr : Nat
  opcode : Nat
  aa : Nat
  tc : Nat
  rd : Nat
  ra : Nat
  reserved : Nat
  rcode : Nat
  qdcount : Nat
  ancount : Nat
  nscount : Nat
  arcount : Nat
deriving DecidableEq, Repr

/-- `records.rs` `DNSQuestion`. -/
structure DNSQuestion where
  qname : DomainName
  qtype : Nat
  qclass : Nat
deriving DecidableEq, Repr

/-- `records.rs` `DNSRdata`: the tagged rdata payload.  `A` carries the
`u32` of the IPv4 address, `Aaaa` the `u128` of the IPv6 address, `Txt` and
`Other` raw byte lists. -/
inductive DNSRdata where
  | A (ip : Nat)
  | Aaaa (ip : Nat)
  | Cname (dn : DomainName)
  | Mx (pref : Nat) (dn : DomainName)
  | Ns (dn : DomainName)
  | Txt (s : List Nat)
  | Other (raw : List Nat)
deriving DecidableEq, Repr

/-- `records.rs` `DNSResourceRecord` (the `Rc` wrapper around rdata is
irrelevant to values and dropped). -/
structure DNSResourceRecord where
  name : DomainName
  type : Nat
  class' : Nat
  ttl : Nat
  rdlength : Nat
  rdata : DNSRdata
deriving DecidableEq, Repr

/-- `records.rs` `DNSPacket`. -/
structure DNSPacket where
  header : DNSHeader
  questions : List DNSQuestion
  answers : List DNSResourceRecord
  authorities : List DNSResourceRecord
  additionals : List DNSResourceRecord
deriving DecidableEq, Repr

/-! ## Big-endian integer serialization (`byteorder::BigEndian` writes) -/

/-- `write_u16::<BigEndian>`: two big-endian bytes.  Taking each digit
`% 256` also embeds the `as u16` truncating casts that feed some writes. -/
def u16be (n : Nat) : List Nat := [n / 256 % 256, n % 256]

/-- `write_u32::<BigEndian>`: four big-endian bytes. -/
def u32be (n : Nat) : List Nat :=
  [n / 2 ^ 24 % 256, n / 2 ^ 16 % 256, n / 256 % 256, n % 256]

/-- `Ipv6Addr::octets()` (16 bytes, big-endian `u128`). -/
def u128be (n : Nat) : List Nat :=
  u32be (n / 2 ^ 96) ++ u32be (n / 2 ^ 64 % 2 ^ 32) ++
    u32be (n / 2 ^ 32 % 2 ^ 32) ++ u32be (n % 2 ^ 32)

/-- `domain_name.rs` `DomainNameToBytes::to_bytes`: each label as a length
octet (`d.len() as u8`) followed by its bytes, terminated by a zero
octet. -/
def DomainName.toBytes (dn : DomainName) : List Nat :=
  (dn.flatMap fun d => d.length % 256 :: d) ++ [0]

/-- `domain_name.rs` `ToReadableName::to_domain_name`: presentation form,
labels joined with `'.'` (byte 46); the empty name prints as `"."`. -/
def toReadableName (dn : DomainName) : List Nat :=
  match dn with
  | [] => [46]
  | l :: ls => l ++ ls.flatMap fun x => 46 :: x

/-- `domain_name.rs` `ToDomainName::to_domain_name` on `String`:
`split('.')`.  An empty string yields one empty label, as in Rust. -/
def strToDomainName (s : List Nat) : DomainName :=
  match s with
  | [] => [[]]
  | b :: rest =>
    match strToDomainName rest with
    | [] => [[b]]
    | seg :: segs => if b = 46 then [] :: seg :: segs else (b :: seg) :: segs

/-- `records.rs` `DNSRdata::get_type` composed with `as u16`: the numeric
wire type of a recognized variant. -/
def DNSRdata.getTypeNum : DNSRdata → Option Nat
  | .A _ => some 1
  | .Aaaa _ => some 28
  | .Cname _ => some 5
  | .Mx _ _ => some 15
  | .Ns _ => some 2
  | .Txt _ => some 16
  | .Other _ => none

/-- The rdata payload bytes built into `buf` by `DNSRdata::to_bytes`
before the length prefix is written. -/
def DNSRdata.payload : DNSRdata → List Nat
  | .A ip => u32be ip
  | .Aaaa ip => u128be ip
  | .Cname dn => dn.toBytes
  | .Mx pref dn => u16be pref ++ dn.toBytes
  | .Ns dn => dn.toBytes
  | .Txt s => s
  | .Other raw => raw

/-- `records.rs` `DNSRdata::to_bytes`: a 16-bit length (`buf.len() as
u16`) followed by the payload. -/
def DNSRdata.toBytes (rd : DNSRdata) : List Nat :=
  u16be rd.payload.length ++ rd.payload

/-- The third header byte written by `DNSHeader::to_bytes`:
`(self.qr << 7) | (self.opcode << 3) | (self.aa << 2) | (self.rd)` — the
source omits the `tc` bit.  Shifts of `u8` values truncate mod 256. -/
def DNSHeader.byte2 (h : DNSHeader) : Nat :=
  Nat.lor (Nat.lor (Nat.lor (h.qr * 2 ^ 7 % 256) (h.opcode * 2 ^ 3 % 256))
    (h.aa * 2 ^ 2 % 256)) (h.rd % 256)

/-- The fourth header byte written by `DNSHeader::to_bytes`:
`(self.ra << 7) | (self.reserved << 4) | self.rcode`. -/
def DNSHeader.byte3 (h : DNSHeader) : Nat :=
  Nat.lor (Nat.lor (h.ra * 2 ^ 7 % 256) (h.reserved * 2 ^ 4 % 256))
    (h.rcode % 256)

/-- `records.rs` `DNSHeader::to_bytes`. -/
def DNSHeader.toBytes (h : DNSHeader) (qdcount ancount nscount arcount : Nat) :
    List Nat :=
  u16be h.id ++ [h.byte2, h.byte3] ++
    u16be qdcount ++ u16be ancount ++ u16be nscount ++ u16be arcount

/-- `records.rs` `DNSQuestion::to_bytes`. -/
def DNSQuestion.toBytes (q : DNSQuestion) : List Nat :=
  q.qname.toBytes ++ u16be q.qtype ++ u16be q.qclass

/-- `records.rs` `DNSResourceRecord::to_bytes`: the wire type is taken
from the rdata variant when recognized, else from the stored `type`
field. -/
def DNSResourceRecord.toBytes (r : DNSResourceRecord) : List Nat :=
  r.name.toBytes ++ u16be (r.rdata.getTypeNum.getD r.type) ++
    u16be r.class' ++ u32be r.ttl ++ r.rdata.toBytes

/-- `records.rs` `DNSPacket::assemble`: header (with the four counts taken
from the actual section lengths, cast `as u16`) followed by the four
sections. -/
def DNSPacket.assemble (p : DNSPacket) : List Nat :=
  p.header.toBytes p.questions.length p.answers.length p.authorities.length
      p.additionals.length ++
    p.questions.flatMap DNSQuestion.toBytes ++
    p.answers.flatMap DNSResourceRecord.toBytes ++
    p.authorities.flatMap DNSResourceRecord.toBytes ++
    p.additionals.flatMap DNSResourceRecord.toBytes

/-- `records.rs` `DNSHeader::new`. -/
def DNSHeader.new (id : Nat) (isQuery : Bool) : DNSHeader :=
  { id := id, qr := if isQuery then 0 else 1, opcode := 0, aa := 0, tc := 0,
    rd := 0, ra := 0, reserved := 0, rcode := 0, qdcount := 0, ancount := 0,
    nscount := 0, arcount := 0 }

/-- `records.rs` `DNSPacket::new`. -/
def DNSPacket.new (id : Nat) (isQuery : Bool) : DNSPacket :=
  { header := DNSHeader.new id isQuery, questions := [], answers := [],
    authorities := [], additionals := [] }

/-- `records.rs` `DNSQuestion::new` (`qclass = DNSClass::IN = 1`). -/
def DNSQuestion.new (qname : DomainName) (qtype : Nat) : DNSQuestion :=
  { qname := qname, qtype := qtype, qclass := 1 }

/-! ## Cursor readers (`util.rs` `ReadExt`, `byteorder` reads) -/

/-- Result of a fuelled parse: success, decode failure, or fuel
exhaustion (the Rust original diverges where every fuel yields
`PRes.fuel`). -/
inductive PRes (α : Type) where
  | ok (a : α)
  | fail
  | fuel
deriving DecidableEq, Repr

/-- `read_u8`: one byte at the cursor. -/
def readU8 (buf : List Nat) (pos : Nat) : Option (Nat × Nat) :=
  match buf[pos]? with
  | some b => some (b % 256, pos + 1)
  | none => none

/-- `read_u16::<BigEndian>`. -/
def readU16 (buf : List Nat) (pos : Nat) : Option (Nat × Nat) :=
  match readU8 buf pos with
  | some (hi, p1) =>
    match readU8 buf p1 with
    | some (lo, p2) => some (hi * 256 + lo, p2)
    | none => none
  | none => none

/-- `read_u32::<BigEndian>`. -/
def readU32 (buf : List Nat) (pos : Nat) : Option (Nat × Nat) :=
  match readU16 buf pos with
  | some (hi, p1) =>
    match readU16 buf p1 with
    | some (lo, p2) => some (hi * 2 ^ 16 + lo, p2)
    | none => none
  | none => none

/-- `read_u128::<BigEndian>`. -/
def readU128 (buf : List Nat) (pos : Nat) : Option (Nat × Nat) :=
  match readU32 buf pos with
  | some (a, p1) =>
    match readU32 buf p1 with
    | some (b, p2) =>
      match readU32 buf p2 with
      | some (c, p3) =>
        match readU32 buf p3 with
        | some (d, p4) =>
          some (a * 2 ^ 96 + b * 2 ^ 64 + c * 2 ^ 32 + d, p4)
        | none => none
      | none => none
    | none => none
  | none => none

/-- `read_exact` into a fresh buffer (`read_raw` / `read_string_exact`;
the UTF-8 check of `read_string_exact` is dropped — labels and texts stay
byte lists, which only widens the set of accepted inputs). -/
def readBytes (buf : List Nat) (pos len : Nat) : Option (List Nat × Nat) :=
  if pos + len ≤ buf.length then
    some (((buf.drop pos).take len).map (· % 256), pos + len)
  else none

/-- `records.rs` `ReadDomainName::read_domain_name` for `Cursor<&[u8]>`,
with explicit fuel: labels are read until a zero octet; a count octet with
top bits `11` is a 14-bit pointer, followed by a recursive read at the
pointer target after which the cursor is restored past the pointer. -/
def readDomainName : Nat → List Nat → Nat → PRes (DomainName × Nat)
  | 0, _, _ => .fuel
  | fuel + 1, buf, pos =>
    match readU8 buf pos with
    | none => .fail
    | some (cnt, pos1) =>
      if cnt = 0 then .ok ([], pos1)
      else if cnt / 64 = 3 then
        match readU16 buf pos with
        | none => .fail
        | some (w, pos2) =>
          match readDomainName fuel buf (w % 2 ^ 14) with
          | .ok (dn, _) => .ok (dn, pos2)
          | .fail => .fail
          | .fuel => .fuel
      else
        match readBytes buf pos1 cnt with
        | none => .fail
        | some (d, pos2) =>
          match readDomainName fuel buf pos2 with
          | .ok (dn, pos3) => .ok (d :: dn, pos3)
          | .fail => .fail
          | .fuel => .fuel

/-- `records.rs` `DNSHeader::from_raw` (cursor starts at 0). -/
def DNSHeader.fromRaw (buf : List Nat) : Option (DNSHeader × Nat) :=
  match readU16 buf 0 with
  | none => none
  | some (id, p1) =>
    match readU8 buf p1 with
    | none => none
    | some (tmp1, p2) =>
      match readU8 buf p2 with
      | none => none
      | some (tmp2, p3) =>
        match readU16 buf p3 with
        | none => none
        | some (qdcount, p4) =>
          match readU16 buf p4 with
          | none => none
          | some (ancount, p5) =>
            match readU16 buf p5 with
            | none => none
            | some (nscount, p6) =>
              match readU16 buf p6 with
              | none => none
              | some (arcount, p7) =>
                some ({ id := id, qr := tmp1 / 2 ^ 7 % 2,
                        opcode := tmp1 / 2 ^ 3 % 2 ^ 4, aa := tmp1 / 2 ^ 2 % 2,
                        tc := tmp1 / 2 % 2, rd := tmp1 % 2,
                        ra := tmp2 / 2 ^ 7 % 2, reserved := tmp2 / 2 ^ 4 % 2 ^ 3,
                        rcode := tmp2 % 2 ^ 4, qdcount := qdcount,
                        ancount := ancount, nscount := nscount,
                        arcount := arcount }, p7)

/-- `records.rs` `DNSQuestion::from_raw`: `count` questions in
sequence. -/
def DNSQuestion.fromRaw (fuel : Nat) (buf : List Nat) :
    Nat → Nat → PRes (List DNSQuestion × Nat)
  | pos, 0 => .ok ([], pos)
  | pos, count + 1 =>
    match readDomainName fuel buf pos with
    | .fail => .fail
    | .fuel => .fuel
    | .ok (qname, p1) =>
      match readU16 buf p1 with
      | none => .fail
      | some (qtype, p2) =>
        match readU16 buf p2 with
        | none => .fail
        | some (qclass, p3) =>
          match DNSQuestion.fromRaw fuel buf p3 count with
          | .fail => .fail
          | .fuel => .fuel
          | .ok (rest, p4) =>
            .ok ({ qname := qname, qtype := qtype, qclass := qclass } :: rest,
              p4)

/-- `records.rs` `DNSResourceRecord::rdata_from_raw`: the variant is
selected by `DNSType::from_num(rtype)`; unrecognized numbers fall to the
opaque branch. -/
def rdataFromRaw (fuel : Nat) (buf : List Nat) (pos rtype : Nat) :
    PRes ((Nat × DNSRdata) × Nat) :=
  match readU16 buf pos with
  | none => .fail
  | some (rdlength, p1) =>
    if rtype = 1 then
      match readU32 buf p1 with
      | none => .fail
      | some (ip, p2) => .ok ((rdlength, .A ip), p2)
    else if rtype = 28 then
      match readU128 buf p1 with
      | none => .fail
      | some (ip, p2) => .ok ((rdlength, .Aaaa ip), p2)
    else if rtype = 5 then
      match readDomainName fuel buf p1 with
      | .fail => .fail
      | .fuel => .fuel
      | .ok (dn, p2) => .ok ((rdlength, .Cname dn), p2)
    else if rtype = 15 then
      match readU16 buf p1 with
      | none => .fail
      | some (pref, p2) =>
        match readDomainName fuel buf p2 with
        | .fail => .fail
        | .fuel => .fuel
        | .ok (dn, p3) => .ok ((rdlength, .Mx pref dn), p3)
    else if rtype = 2 then
      match readDomainName fuel buf p1 with
      | .fail => .fail
      | .fuel => .fuel
      | .ok (dn, p2) => .ok ((rdlength, .Ns dn), p2)
    else if rtype = 16 then
      match readBytes buf p1 rdlength with
      | none => .fail
      | some (s, p2) => .ok ((rdlength, .Txt s), p2)
    else
      match readBytes buf p1 rdlength with
      | none => .fail
      | some (raw, p2) => .ok ((rdlength, .Other raw), p2)

/-- `records.rs` `DNSResourceRecord::from_raw`. -/
def DNSResourceRecord.fromRaw (fuel : Nat) (buf : List Nat) (pos : Nat) :
    PRes (DNSResourceRecord × Nat) :=
  match readDomainName fuel buf pos with
  | .fail => .fail
  | .fuel => .fuel
  | .ok (name, p1) =>
    match readU16 buf p1 with
    | none => .fail
    | some (rtype, p2) =>
      match readU16 buf p2 with
      | none => .fail
      | some (rclass, p3) =>
        match readU32 buf p3 with
        | none => .fail
        | some (ttl, p4) =>
          match rdataFromRaw fuel buf p4 rtype with
          | .fail => .fail
          | .fuel => .fuel
          | .ok ((rdlength, rdata), p5) =>
            .ok ({ name := name, type := rtype, class' := rclass, ttl := ttl,
                   rdlength := rdlength, rdata := rdata }, p5)

/-- `records.rs` `DNSResourceRecord::from_raw_multi`. -/
def DNSResourceRecord.fromRawMulti (fuel : Nat) (buf : List Nat) :
    Nat → Nat → PRes (List DNSResourceRecord × Nat)
  | pos, 0 => .ok ([], pos)
  | pos, count + 1 =>
    match DNSResourceRecord.fromRaw fuel buf pos with
    | .fail => .fail
    | .fuel => .fuel
    | .ok (r, p1) =>
      match DNSResourceRecord.fromRawMulti fuel buf p1 count with
      | .fail => .fail
      | .fuel => .fuel
      | .ok (rest, p2) => .ok (r :: rest, p2)

/-- `records.rs` `DNSPacket::from_raw` (trailing bytes are ignored, as in
the source). -/
def DNSPacket.fromRaw (fuel : Nat) (buf : List Nat) : PRes DNSPacket :=
  match DNSHeader.fromRaw buf with
  | none => .fail
  | some (header, p0) =>
    match DNSQuestion.fromRaw fuel buf p0 header.qdcount with
    | .fail => .fail
    | .fuel => .fuel
    | .ok (questions, p1) =>
      match DNSResourceRecord.fromRawMulti fuel buf p1 header.ancount with
      | .fail => .fail
      | .fuel => .fuel
      | .ok (answers, p2) =>
        match DNSResourceRecord.fromRawMulti fuel buf p2 header.nscount with
        | .fail => .fail
        | .fuel => .fuel
        | .ok (authorities, p3) =>
          match DNSResourceRecord.fromRawMulti fuel buf p3 header.arcount with
          | .fail => .fail
          | .fuel => .fuel
          | .ok (additionals, _) =>
            .ok { header := header, questions := questions, answers := answers,
                  authorities := authorities, additionals := additionals }

/-! ## Resolver engine (`dns.rs`) -/

/-- `dns.rs` `ROOT_SERVERS`, parsed to `u32` IPv4 values. -/
def ipv4Of (a b c d : Nat) : Nat := ((a * 256 + b) * 256 + c) * 256 + d

/-- The 13 root-server addresses of `dns.rs`. -/
def ROOT_SERVERS : List Nat :=
  [ipv4Of 198 41 0 4, ipv4Of 199 9 14 201, ipv4Of 192 33 4 12,
    ipv4Of 199 7 91 13, ipv4Of 192 203 230 10, ipv4Of 192 5 5 241,
    ipv4Of 192 112 36 4, ipv4Of 198 97 190 53, ipv4Of 192 36 148 17,
    ipv4Of 192 58 128 30, ipv4Of 193 0 14 129, ipv4Of 199 7 83 42,
    ipv4Of 202 12 27 33]

/-- `dns.rs` `get_a_root_addr`, with the random index supplied by the
caller (reduced mod 13, the range of `(0..len).rand()`). -/
def getARootAddr (idx : Nat) : IpAddr :=
  .v4 (ROOT_SERVERS.getD (idx % ROOT_SERVERS.length) 0)

/-- `dns.rs` `RdnsData`: one pending-table entry. -/
structure RdnsData where
  srcAddr : SockAddr
  packetStack : List DNSPacket
deriving Repr

/-- `dns.rs` `RdnsCacheEntry`: absolute expiration (seconds, `Int`) plus
the stored record. -/
structure RdnsCacheEntry where
  expiration : Int
  record : DNSResourceRecord
deriving Repr

/-- The mutable state of `Rdns::start`: the pending table `id_map` and the
cache (both Rust `HashMap`s, embedded as functions to `Option`). -/
structure RState where
  idMap : Nat → Option RdnsData
  cache : Nat × List Nat → Option RdnsCacheEntry

/-- Pointwise update of the pending table. -/
def updMap (m : Nat → Option RdnsData) (k : Nat) (v : Option RdnsData) :
    Nat → Option RdnsData :=
  fun i => if i = k then v else m i

/-- Pointwise update of the cache. -/
def updCache (c : Nat × List Nat → Option RdnsCacheEntry) (k : Nat × List Nat)
    (v : Option RdnsCacheEntry) : Nat × List Nat → Option RdnsCacheEntry :=
  fun i => if i = k then v else c i

/-- The cache insertion performed for each answer record in `Rdns::start`
(lines 96–104): key `(type, presentation-form name)`, expiration
`now + ttl` seconds. -/
def cacheInsert (c : Nat × List Nat → Option RdnsCacheEntry) (now : Int)
    (ans : DNSResourceRecord) : Nat × List Nat → Option RdnsCacheEntry :=
  updCache c (ans.type, toReadableName ans.name)
    (some { expiration := now + ans.ttl, record := ans })

/-- The cache lookup of `Rdns::start` (lines 137–160): on an expired entry
remove it and miss; on a live entry return a clone of the record with
`ttl` rewritten to `(expiration - now).num_seconds() as u32`. -/
def cacheLookup (c : Nat × List Nat → Option RdnsCacheEntry) (now : Int)
    (key : Nat × List Nat) :
    (Nat × List Nat → Option RdnsCacheEntry) × Option DNSResourceRecord :=
  match c key with
  | some ce =>
    if now ≥ ce.expiration then (updCache c key none, none)
    else (c, some { ce.record with
      ttl := ((ce.expiration - now) % (2 ^ 32 : Int)).toNat })
  | none => (c, none)

/-- The random draws one loop iteration may consume: a root-server index,
an NS-name index, and a glue-address index. -/
structure Oracle where
  rootIdx : Nat
  nsIdx : Nat
  glueIdx : Nat
deriving Repr

/-- The authority-scan body of `check_for_ns_addr`: insert the
presentation name of a type-NS record into the set (`HashSet::insert`
dedupes). -/
def nsInsert (acc : List (List Nat)) (x : DNSResourceRecord) :
    List (List Nat) :=
  if x.type = 2 then
    match x.rdata with
    | .Ns dn =>
      if toReadableName dn ∈ acc then acc else acc ++ [toReadableName dn]
    | _ => acc
  else acc

/-- The additional-scan body of `check_for_ns_addr`: keep the address of
an A record whose owner name is in the NS-name set. -/
def glueOf (nameservs : List (List Nat)) (x : DNSResourceRecord) :
    Option Nat :=
  match x.rdata with
  | .A ip => if toReadableName x.name ∈ nameservs then some ip else none
  | _ => none

/-- `dns.rs` `Rdns::check_for_ns_addr`: collect the presentation names of
the authority-section NS records into a set; keep the IPv4 addresses of
additional-section A records whose owner name is in that set; return one
of them if any (the random draw supplied as `glueIdx`), else the NS-name
list. -/
def checkForNsAddr (pkt : DNSPacket) (glueIdx : Nat) :
    Sum Nat (List (List Nat)) :=
  let nameservs := pkt.authorities.foldl nsInsert []
  let v := pkt.additionals.filterMap (glueOf nameservs)
  if v.isEmpty then .inr nameservs
  else .inl (v.getD (glueIdx % v.length) 0)

/-- The sub-query packet built by `dns.rs` `Rdns::query_for`: a fresh
query with the reused transaction ID and one type-A, class-IN question for
the given presentation-form name. -/
def queryForPacket (id : Nat) (domainName : List Nat) : DNSPacket :=
  { DNSPacket.new id true with
    questions := [DNSQuestion.new (strToDomainName domainName) 1] }

/-- One iteration of the `Rdns::start` event loop on an already decoded
packet: the state, the decoded datagram, its source address, the wall
clock and the random draws come in; out come the new state and the list of
`(destination, packet)` sends.  `none` models a run-time abort (an
out-of-bounds index or a failed unwrap). -/
def step (s : RState) (recv : DNSPacket) (faddr : SockAddr) (now : Int)
    (o : Oracle) : Option (RState × List (SockAddr × DNSPacket)) :=
  let id := recv.header.id
  match s.idMap id with
  | some original =>
    -- collision guard: `error` sets rcode to Refused on `received` itself
    -- and sends it; control then falls through with the mutated packet
    let recv1 := if faddr = original.srcAddr then
      { recv with header := { recv.header with rcode := 5 } } else recv
    let sends0 := if faddr = original.srcAddr then [(faddr, recv1)] else []
    if recv1.answers.length ≠ 0 then
      if original.packetStack.length > 1 then
        match recv1.answers with
        | [] => none
        | a :: _ =>
          match a.rdata with
          | .A ip =>
            let stack1 := original.packetStack.dropLast
            match stack1.getLast? with
            | none => none
            | some top =>
              let entry1 : RdnsData := { original with packetStack := stack1 }
              some ({ s with idMap := updMap s.idMap id (some entry1) },
                sends0 ++ [(⟨.v4 ip, 53⟩, top)])
          | _ =>
            some ({ s with idMap := updMap s.idMap id none }, sends0)
      else
        let cache1 := recv1.answers.foldl (fun c ans => cacheInsert c now ans)
          s.cache
        some ({ idMap := updMap s.idMap id none, cache := cache1 },
          sends0 ++ [(original.srcAddr, recv1)])
    else
      match checkForNsAddr recv1 o.glueIdx with
      | .inr names =>
        if names.isEmpty then
          some ({ s with idMap := updMap s.idMap id none },
            sends0 ++ [(original.srcAddr, recv1)])
        else
          let n := names.getD (o.nsIdx % names.length) []
          let pkt := queryForPacket id n
          let entry1 : RdnsData :=
            { original with packetStack := original.packetStack ++ [pkt] }
          some ({ s with idMap := updMap s.idMap id (some entry1) },
            sends0 ++ [(⟨getARootAddr o.rootIdx, 53⟩, pkt)])
      | .inl ip =>
        match original.packetStack.getLast? with
        | none => none
        | some top => some (s, sends0 ++ [(⟨.v4 ip, 53⟩, top)])
  | none =>
    if recv.header.qr ≠ 0 then some (s, [])
    else if recv.answers.length ≠ 0 then some (s, [])
    else
      match recv.questions with
      | [] => none
      | question :: _ =>
        let key := (question.qtype, toReadableName question.qname)
        let (cache1, hit) := cacheLookup s.cache now key
        match hit with
        | some rec =>
          let reply : DNSPacket :=
            { header := DNSHeader.new recv.header.id false,
              questions := [question], answers := [rec], authorities := [],
              additionals := [] }
          some ({ s with cache := cache1 }, [(faddr, reply)])
        | none =>
          let entry1 : RdnsData := { srcAddr := faddr, packetStack := [recv] }
          some ({ idMap := updMap s.idMap id (some entry1), cache := cache1 },
            [(⟨getARootAddr o.rootIdx, 53⟩, recv)])

/-- The initial state of `Rdns::start`: empty pending table, empty
cache. -/
def initState : RState :=
  { idMap := fun _ => none, cache := fun _ => none }

/-- The states the event loop can reach from startup, one decoded
datagram at a time. -/
inductive Reachable : RState → Prop where
  | init : Reachable initState
  | next {s recv faddr now o s' outs} : Reachable s →
      step s recv faddr now o = some (s', outs) → Reachable s'

/-! ## Concrete inputs used by the claim theorems -/

/-- A datagram whose question name is a compression pointer at offset 12
targeting offset 12 (bytes `C0 0C`): header id 7, `qdcount = 1`. -/
def cycBuf : List Nat := [0, 7, 0, 0, 0, 1, 0, 0, 0, 0, 0, 0, 192, 12]

/-- The header decoded from `cycBuf`. -/
def cycHdr : DNSHeader :=
  { id := 7, qr := 0, opcode := 0, aa := 0, tc := 0, rd := 0, ra := 0,
    reserved := 0, rcode := 0, qdcount := 1, ancount := 0, nscount := 0,
    arcount := 0 }

/-- A header whose only set flag is `tc`. -/
def c4Hdr : DNSHeader :=
  { id := 0, qr := 0, opcode := 0, aa := 0, tc := 1, rd := 0, ra := 0,
    reserved := 0, rcode := 0, qdcount := 0, ancount := 0, nscount := 0,
    arcount := 0 }

/-- A packet with `2 ^ 16` questions: its question count no longer fits in
the 16-bit header field. -/
def c9Pkt : DNSPacket :=
  { header := DNSHeader.new 0 true,
    questions := List.replicate (2 ^ 16) (DNSQuestion.new [] 1),
    answers := [], authorities := [], additionals := [] }

/-- A client socket address. -/
def addrA : SockAddr := ⟨.v4 1, 1000⟩

/-- An upstream socket address distinct from `addrA`. -/
def addrB : SockAddr := ⟨.v4 2, 2000⟩

/-- A fixed random-draw assignment. -/
def o0 : Oracle := ⟨0, 0, 0⟩

/-- A type-A question for the name `"a"`. -/
def qA : DNSQuestion := { qname := [[97]], qtype := 1, qclass := 1 }

/-- A client query: id 7, one question, no answers. -/
def pktQuery : DNSPacket :=
  { header := { DNSHeader.new 7 true with qdcount := 1 }, questions := [qA],
    answers := [], authorities := [], additionals := [] }

/-- `pktQuery` after `error` stamped rcode Refused on it. -/
def pktRefused : DNSPacket :=
  { pktQuery with header := { pktQuery.header with rcode := 5 } }

/-- An A answer record for the name `"n.s"`. -/
def ansRec : DNSResourceRecord :=
  { name := [[110], [115]], type := 1, class' := 1, ttl := 60, rdlength := 4,
    rdata := .A 5 }

/-- An upstream answer datagram: id 7, one A answer. -/
def pktAnswer : DNSPacket :=
  { header := { DNSHeader.new 7 false with ancount := 1 }, questions := [],
    answers := [ansRec], authorities := [], additionals := [] }

/-- The synthesized sub-query for the NS name `"n.s"`. -/
def subQueryPkt : DNSPacket := queryForPacket 7 [110, 46, 115]

/-- A state with one pending entry (id 7, client `addrA`, stack depth 1). -/
def s1State : RState :=
  { idMap := updMap (fun _ => none) 7 (some ⟨addrA, [pktQuery]⟩),
    cache := fun _ => none }

/-- A state with one pending entry of stack depth 2. -/
def s2State : RState :=
  { idMap := updMap (fun _ => none) 7 (some ⟨addrA, [pktQuery, subQueryPkt]⟩),
    cache := fun _ => none }

/-- A decodable query with `qdcount = 0`: twelve zero bytes. -/
def zeroBuf : List Nat := List.replicate 12 0

/-- An NS authority record delegating to `"n.s"`. -/
def nsAuthRec : DNSResourceRecord :=
  { name := [[99]], type := 2, class' := 1, ttl := 60, rdlength := 0,
    rdata := .Ns [[110], [115]] }

/-- A glue A record for `"n.s"`. -/
def glueRec : DNSResourceRecord :=
  { name := [[110], [115]], type := 1, class' := 1, ttl := 60, rdlength := 4,
    rdata := .A 99 }

/-- A delegation response carrying one NS record and its glue. -/
def pktDeleg : DNSPacket :=
  { header := DNSHeader.new 7 false, questions := [], answers := [],
    authorities := [nsAuthRec], additionals := [glueRec] }

/-- The same delegation without the glue record. -/
def pktDelegNoGlue : DNSPacket := { pktDeleg with additionals := [] }

/-! ## Round-trip support definitions -/

/-- Semantic record equality of the round-trip claim: same owner name,
wire type, class, TTL and rdata payload (the stored `rdlength` is excluded
— the encoder recomputes it from the payload). -/
def recSemEq (r r2 : DNSResourceRecord) : Prop :=
  r2.name = r.name ∧ r2.type = r.type ∧ r2.class' = r.class' ∧
    r2.ttl = r.ttl ∧ r2.rdata = r.rdata

/-- A record as it re-decodes after one encode: identical except that
`rdlength` is the recomputed payload length. -/
def reencRR (r : DNSResourceRecord) : DNSResourceRecord :=
  { r with rdlength := r.rdata.payload.length % 2 ^ 16 }

/-- Length of the domain name embedded in an rdata payload, if any. -/
def rdNameLen : DNSRdata → Nat
  | .Cname dn => dn.length
  | .Mx _ dn => dn.length
  | .Ns dn => dn.length
  | _ => 0

/-- Combined name-length budget of one record. -/
def rrNameLens (r : DNSResourceRecord) : Nat :=
  r.name.length + rdNameLen r.rdata

/-- A fuel budget large enough to decode every name of the re-encoded
packet. -/
def packetFuel (m : DNSPacket) : Nat :=
  1 + m.questions.foldr (fun q acc => q.qname.length + acc) 0 +
    (m.answers ++ m.authorities ++ m.additionals).foldr
      (fun r acc => rrNameLens r + acc) 0

/-- The wire bytes of `pktQuery`: header (id 7, qdcount 1) followed by one
type-A class-IN question for `"a"`. -/
def qbuf : List Nat :=
  [0, 7, 0, 0, 0, 1, 0, 0, 0, 0, 0, 0] ++ [1, 97, 0, 0, 1, 0, 1]

/-! ## Positional reader lemmas -/

theorem getElem?_at (pre l2 : List Nat) (k : Nat) :
    (pre ++ l2)[pre.length + k]? = l2[k]? := by
  rw [List.getElem?_append_right (by omega)]
  congr 1
  omega

theorem getElem?_at0 (pre l2 : List Nat) :
    (pre ++ l2)[pre.length]? = l2[0]? := by
  simpa using getElem?_at pre l2 0

theorem readU8_at (pre rest : List Nat) (b : Nat) :
    readU8 (pre ++ b :: rest) pre.length = some (b % 256, pre.length + 1) := by
  have e1 : (pre ++ b :: rest)[pre.length]? = some b := by
    rw [getElem?_at0]
    simp
  simp [readU8, e1]

theorem readU16_at (pre rest : List Nat) (hi lo : Nat) :
    readU16 (pre ++ hi :: lo :: rest) pre.length =
      some ((hi % 256) * 256 + lo % 256, pre.length + 2) := by
  have e1 : (pre ++ hi :: lo :: rest)[pre.length]? = some hi := by
    rw [getElem?_at0]
    simp
  have e2 : (pre ++ hi :: lo :: rest)[pre.length + 1]? = some lo := by
    rw [getElem?_at]
    simp
  simp [readU16, readU8, e1, e2]

theorem readU16_u16be (pre rest : List Nat) (x : Nat) :
    readU16 (pre ++ u16be x ++ rest) pre.length =
      some (x % 2 ^ 16, pre.length + 2) := by
  have h : pre ++ u16be x ++ rest = pre ++ x / 256 % 256 :: x % 256 :: rest := by
    simp [u16be]
  rw [h, readU16_at]
  congr 2
  omega

theorem readU32_at (pre rest : List Nat) (b0 b1 b2 b3 : Nat) :
    readU32 (pre ++ b0 :: b1 :: b2 :: b3 :: rest) pre.length =
      some (((b0 % 256) * 256 + b1 % 256) * 2 ^ 16 +
        ((b2 % 256) * 256 + b3 % 256), pre.length + 4) := by
  have e0 : (pre ++ b0 :: b1 :: b2 :: b3 :: rest)[pre.length]? = some b0 := by
    rw [getElem?_at0]
    simp
  have e1 : (pre ++ b0 :: b1 :: b2 :: b3 :: rest)[pre.length + 1]? = some b1 := by
    rw [getElem?_at]
    simp
  have e2 : (pre ++ b0 :: b1 :: b2 :: b3 :: rest)[pre.length + 2]? = some b2 := by
    rw [getElem?_at]
    simp
  have e3 : (pre ++ b0 :: b1 :: b2 :: b3 :: rest)[pre.length + 3]? = some b3 := by
    rw [getElem?_at]
    simp
  simp [readU32, readU16, readU8, e0, e1, e2, e3]

theorem readU32_u32be (pre rest : List Nat) (x : Nat) :
    readU32 (pre ++ u32be x ++ rest) pre.length =
      some (x % 2 ^ 32, pre.length + 4) := by
  have h : pre ++ u32be x ++ rest =
      pre ++ x / 2 ^ 24 % 256 :: x / 2 ^ 16 % 256 :: x / 256 % 256 ::
        x % 256 :: rest := by
    simp [u32be]
  rw [h, readU32_at]
  congr 2
  omega

theorem readU128_u128be (pre rest : List Nat) (x : Nat) (hx : x < 2 ^ 128) :
    readU128 (pre ++ u128be x ++ rest) pre.length =
      some (x, pre.length + 16) := by
  have l32 : ∀ y : Nat, (u32be y).length = 4 := fun y => by simp [u32be]
  have e1 : pre ++ u128be x ++ rest =
      pre ++ u32be (x / 2 ^ 96) ++ (u32be (x / 2 ^ 64 % 2 ^ 32) ++
        (u32be (x / 2 ^ 32 % 2 ^ 32) ++ (u32be (x % 2 ^ 32) ++ rest))) := by
    simp [u128be]
  have e2 : pre ++ u128be x ++ rest =
      (pre ++ u32be (x / 2 ^ 96)) ++ u32be (x / 2 ^ 64 % 2 ^ 32) ++
        (u32be (x / 2 ^ 32 % 2 ^ 32) ++ (u32be (x % 2 ^ 32) ++ rest)) := by
    simp [u128be]
  have e3 : pre ++ u128be x ++ rest =
      ((pre ++ u32be (x / 2 ^ 96)) ++ u32be (x / 2 ^ 64 % 2 ^ 32)) ++
        u32be (x / 2 ^ 32 % 2 ^ 32) ++ (u32be (x % 2 ^ 32) ++ rest) := by
    simp [u128be]
  have e4 : pre ++ u128be x ++ rest =
      (((pre ++ u32be (x / 2 ^ 96)) ++ u32be (x / 2 ^ 64 % 2 ^ 32)) ++
        u32be (x / 2 ^ 32 % 2 ^ 32)) ++ u32be (x % 2 ^ 32) ++ rest := by
    simp [u128be]
  have r1 : readU32 (pre ++ u128be x ++ rest) pre.length =
      some (x / 2 ^ 96 % 2 ^ 32, pre.length + 4) := by
    rw [e1, readU32_u32be]
  have r2 : readU32 (pre ++ u128be x ++ rest) (pre.length + 4) =
      some (x / 2 ^ 64 % 2 ^ 32, pre.length + 8) := by
    rw [e2, show pre.length + 4 = (pre ++ u32be (x / 2 ^ 96)).length by
      simp [l32], readU32_u32be]
    simp [l32]
  have r3 : readU32 (pre ++ u128be x ++ rest) (pre.length + 8) =
      some (x / 2 ^ 32 % 2 ^ 32, pre.length + 12) := by
    rw [e3, show pre.length + 8 =
      ((pre ++ u32be (x / 2 ^ 96)) ++ u32be (x / 2 ^ 64 % 2 ^ 32)).length by
        simp [l32], readU32_u32be]
    simp [l32]
  have r4 : readU32 (pre ++ u128be x ++ rest) (pre.length + 12) =
      some (x % 2 ^ 32 % 2 ^ 32, pre.length + 16) := by
    rw [e4, show pre.length + 12 =
      (((pre ++ u32be (x / 2 ^ 96)) ++ u32be (x / 2 ^ 64 % 2 ^ 32)) ++
        u32be (x / 2 ^ 32 % 2 ^ 32)).length by simp [l32], readU32_u32be]
    simp [l32]
  rw [readU128, r1]
  simp only [r2, r3, r4]
  congr 1
  congr 1
  omega

theorem readBytes_at (pre s rest : List Nat) (hs : ∀ b ∈ s, b < 256) :
    readBytes (pre ++ s ++ rest) pre.length s.length =
      some (s, pre.length + s.length) := by
  have hle : pre.length + s.length ≤ (pre ++ s ++ rest).length := by
    simp
  rw [readBytes, if_pos hle]
  have hdrop : (pre ++ s ++ rest).drop pre.length = s ++ rest := by
    rw [List.append_assoc, List.drop_append_of_le_length (by simp)]
    simp
  have htake : ((pre ++ s ++ rest).drop pre.length).take s.length = s := by
    rw [hdrop, List.take_append_of_le_length (le_refl _)]
    simp
  rw [htake]
  have hmap : s.map (· % 256) = s := by
    conv_rhs => rw [← List.map_id s]
    exact List.map_congr_left fun b hb => Nat.mod_eq_of_lt (hs b hb)
  rw [hmap]

/-! ## Wellformedness: the shape of every value `from_raw` can produce -/

/-- Shape of any label list produced by `read_domain_name`: each label is
1–191 bytes long (count octets 192–255 are pointers, 0 terminates) and
holds bytes below 256. -/
def WFname (dn : DomainName) : Prop :=
  ∀ l ∈ dn, 1 ≤ l.length ∧ l.length ≤ 191 ∧ ∀ b ∈ l, b < 256

/-- Shape of any `(type, rdata)` pair produced by `rdata_from_raw`: the
variant agrees with the stored wire type and all payloads are in machine
range. -/
def WFrdata (t : Nat) (rd : DNSRdata) : Prop :=
  match rd with
  | .A ip => t = 1 ∧ ip < 2 ^ 32
  | .Aaaa ip => t = 28 ∧ ip < 2 ^ 128
  | .Cname dn => t = 5 ∧ WFname dn
  | .Mx pref dn => t = 15 ∧ pref < 2 ^ 16 ∧ WFname dn
  | .Ns dn => t = 2 ∧ WFname dn
  | .Txt s => t = 16 ∧ s.length < 2 ^ 16 ∧ ∀ b ∈ s, b < 256
  | .Other raw => t ≠ 1 ∧ t ≠ 28 ∧ t ≠ 5 ∧ t ≠ 15 ∧ t ≠ 2 ∧ t ≠ 16 ∧
      raw.length < 2 ^ 16 ∧ ∀ b ∈ raw, b < 256

/-- Shape of any record produced by `DNSResourceRecord::from_raw`. -/
def WFrecord (r : DNSResourceRecord) : Prop :=
  WFname r.name ∧ r.type < 2 ^ 16 ∧ r.class' < 2 ^ 16 ∧ r.ttl < 2 ^ 32 ∧
    WFrdata r.type r.rdata

/-- Shape of any question produced by `DNSQuestion::from_raw`. -/
def WFquestion (q : DNSQuestion) : Prop :=
  WFname q.qname ∧ q.qtype < 2 ^ 16 ∧ q.qclass < 2 ^ 16

/-- Shape of any packet produced by `DNSPacket::from_raw`: wellformed
members and sections short enough for their lengths to survive the
`as u16` cast on re-encode. -/
def WFpacket (p : DNSPacket) : Prop :=
  p.questions.length < 2 ^ 16 ∧ p.answers.length < 2 ^ 16 ∧
    p.authorities.length < 2 ^ 16 ∧ p.additionals.length < 2 ^ 16 ∧
    (∀ q ∈ p.questions, WFquestion q) ∧ (∀ r ∈ p.answers, WFrecord r) ∧
    (∀ r ∈ p.authorities, WFrecord r) ∧ (∀ r ∈ p.additionals, WFrecord r)

/-! ## The decoder only produces wellformed values -/

theorem readU8_lt {buf : List Nat} {pos v p1 : Nat}
    (h : readU8 buf pos = some (v, p1)) : v < 256 := by
  unfold readU8 at h
  cases hb : buf[pos]? with
  | none => rw [hb] at h; exact absurd h (by simp)
  | some b =>
    rw [hb] at h
    simp at h
    omega

theorem readU16_lt {buf : List Nat} {pos v p1 : Nat}
    (h : readU16 buf pos = some (v, p1)) : v < 2 ^ 16 := by
  unfold readU16 at h
  cases h1 : readU8 buf pos with
  | none => rw [h1] at h; exact absurd h (by simp)
  | some a =>
    obtain ⟨av, ap⟩ := a
    rw [h1] at h
    simp only at h
    cases h2 : readU8 buf ap with
    | none => rw [h2] at h; exact absurd h (by simp)
    | some b =>
      obtain ⟨bv, bp⟩ := b
      rw [h2] at h
      simp only at h
      simp at h
      have ha := readU8_lt h1
      have hb := readU8_lt h2
      omega

theorem readU32_lt {buf : List Nat} {pos v p1 : Nat}
    (h : readU32 buf pos = some (v, p1)) : v < 2 ^ 32 := by
  unfold readU32 at h
  cases h1 : readU16 buf pos with
  | none => rw [h1] at h; exact absurd h (by simp)
  | some a =>
    obtain ⟨av, ap⟩ := a
    rw [h1] at h
    simp only at h
    cases h2 : readU16 buf ap with
    | none => rw [h2] at h; exact absurd h (by simp)
    | some b =>
      obtain ⟨bv, bp⟩ := b
      rw [h2] at h
      simp only at h
      simp at h
      have ha := readU16_lt h1
      have hb := readU16_lt h2
      omega

theorem readBytes_spec {buf : List Nat} {pos l : Nat} {out : List Nat}
    {p1 : Nat}
    (h : readBytes buf pos l = some (out, p1)) :
    out.length = l ∧ ∀ b ∈ out, b < 256 := by
  unfold readBytes at h
  by_cases hc : pos + l ≤ buf.length
  · rw [if_pos hc] at h
    simp at h
    obtain ⟨h1, _⟩ := h
    subst h1
    constructor
    · simp only [List.length_map, List.length_take, List.length_drop]
      omega
    · intro b hb
      have hb2 := List.mem_of_mem_drop (List.mem_of_mem_take hb)
      rw [List.mem_map] at hb2
      obtain ⟨a, _, ha⟩ := hb2
      omega
  · rw [if_neg hc] at h
    exact absurd h (by simp)

theorem readDomainName_wf :
    ∀ (fuel : Nat) {buf : List Nat} {pos : Nat} {dn : DomainName} {p1 : Nat},
      readDomainName fuel buf pos = .ok (dn, p1) → WFname dn := by
  intro fuel
  induction fuel with
  | zero => intro buf pos dn p1 h; exact absurd h (by simp [readDomainName])
  | succ n ih =>
    intro buf pos dn p1 h
    unfold readDomainName at h
    cases h8 : readU8 buf pos with
    | none => rw [h8] at h; exact absurd h (by simp)
    | some cp =>
      obtain ⟨cnt, pos1⟩ := cp
      rw [h8] at h
      simp only at h
      by_cases hz : cnt = 0
      · rw [if_pos hz] at h
        simp at h
        obtain ⟨h1, _⟩ := h
        subst h1
        intro l hl
        exact absurd hl (by simp)
      · rw [if_neg hz] at h
        by_cases hp : cnt / 64 = 3
        · rw [if_pos hp] at h
          cases h16 : readU16 buf pos with
          | none => rw [h16] at h; exact absurd h (by simp)
          | some wp =>
            obtain ⟨w, pos2⟩ := wp
            rw [h16] at h
            simp only at h
            cases hr : readDomainName n buf (w % 2 ^ 14) with
            | ok r =>
              obtain ⟨rdn, rp⟩ := r
              rw [hr] at h
              simp at h
              obtain ⟨h1, _⟩ := h
              subst h1
              exact ih hr
            | fail => rw [hr] at h; exact absurd h (by simp)
            | fuel => rw [hr] at h; exact absurd h (by simp)
        · rw [if_neg hp] at h
          cases hb : readBytes buf pos1 cnt with
          | none => rw [hb] at h; exact absurd h (by simp)
          | some dp =>
            obtain ⟨d, pos2⟩ := dp
            rw [hb] at h
            simp only at h
            cases hr : readDomainName n buf pos2 with
            | ok r =>
              obtain ⟨rdn, rp⟩ := r
              rw [hr] at h
              simp at h
              obtain ⟨h1, _⟩ := h
              subst h1
              intro l hl
              rcases List.mem_cons.mp hl with he | hm
              · subst he
                have hcnt := readU8_lt h8
                have hsp := readBytes_spec hb
                refine ⟨?_, ?_, hsp.2⟩
                · rw [hsp.1]
                  omega
                · rw [hsp.1]
                  omega
              · exact ih hr l hm
            | fail => rw [hr] at h; exact absurd h (by simp)
            | fuel => rw [hr] at h; exact absurd h (by simp)

/-! ## The encoder's output parses back (names) -/

theorem toBytes_cons (l : List Nat) (rest : DomainName) :
    DomainName.toBytes (l :: rest) =
      (l.length % 256) :: (l ++ DomainName.toBytes rest) := by
  simp [DomainName.toBytes]

theorem readDomainName_step_zero {n : Nat} {buf : List Nat} {pos pos1 : Nat}
    (h8 : readU8 buf pos = some (0, pos1)) :
    readDomainName (n + 1) buf pos = .ok ([], pos1) := by
  unfold readDomainName
  rw [h8]
  simp

theorem readDomainName_step_label {n : Nat} {buf : List Nat}
    {pos cnt pos1 pos2 pos3 : Nat} {l : List Nat} {rest : DomainName}
    (h8 : readU8 buf pos = some (cnt, pos1)) (hz : cnt ≠ 0)
    (hp : cnt / 64 ≠ 3) (hb : readBytes buf pos1 cnt = some (l, pos2))
    (hr : readDomainName n buf pos2 = .ok (rest, pos3)) :
    readDomainName (n + 1) buf pos = .ok (l :: rest, pos3) := by
  unfold readDomainName
  rw [h8]
  simp only
  rw [if_neg hz, if_neg hp, hb]
  simp only
  rw [hr]

theorem readDomainName_encode :
    ∀ (dn : DomainName) (pre post : List Nat) (fuel : Nat),
      WFname dn → dn.length < fuel →
      readDomainName fuel (pre ++ DomainName.toBytes dn ++ post) pre.length =
        .ok (dn, pre.length + (DomainName.toBytes dn).length) := by
  intro dn
  induction dn with
  | nil =>
    intro pre post fuel _ hfuel
    obtain ⟨n, rfl⟩ := Nat.exists_eq_succ_of_ne_zero (by omega : fuel ≠ 0)
    have hb2 : pre ++ DomainName.toBytes [] ++ post = pre ++ 0 :: post := by
      simp [DomainName.toBytes]
    have h8 : readU8 (pre ++ DomainName.toBytes [] ++ post) pre.length =
        some (0, pre.length + 1) := by
      rw [hb2]
      simpa using readU8_at pre post 0
    rw [readDomainName_step_zero h8]
    simp [DomainName.toBytes]
  | cons l rest ih =>
    intro pre post fuel hwf hfuel
    obtain ⟨n, rfl⟩ := Nat.exists_eq_succ_of_ne_zero (by omega : fuel ≠ 0)
    obtain ⟨hl1, hl2, hl3⟩ := hwf l (by simp)
    have hwfr : WFname rest := fun x hx => hwf x (List.mem_cons_of_mem _ hx)
    have hfr : rest.length < n := by
      simp only [List.length_cons] at hfuel
      omega
    have hbuf : pre ++ DomainName.toBytes (l :: rest) ++ post =
        (pre ++ [l.length % 256]) ++ l ++ (DomainName.toBytes rest ++ post) := by
      rw [toBytes_cons]
      simp
    have h8 : readU8 (pre ++ DomainName.toBytes (l :: rest) ++ post) pre.length
        = some (l.length, pre.length + 1) := by
      have hb2 : pre ++ DomainName.toBytes (l :: rest) ++ post =
          pre ++ l.length % 256 :: ((l ++ DomainName.toBytes rest) ++ post) := by
        rw [toBytes_cons]
        simp
      rw [hb2, readU8_at]
      simp only [Option.some.injEq, Prod.mk.injEq]
      refine ⟨by omega, ?_⟩
      trivial
    have hb : readBytes (pre ++ DomainName.toBytes (l :: rest) ++ post)
        (pre.length + 1) l.length = some (l, pre.length + 1 + l.length) := by
      have h := readBytes_at (pre ++ [l.length % 256]) l
        (DomainName.toBytes rest ++ post) hl3
      rw [← hbuf] at h
      simpa using h
    have hr : readDomainName n (pre ++ DomainName.toBytes (l :: rest) ++ post)
        (pre.length + 1 + l.length) =
        .ok (rest, pre.length + 1 + l.length + (DomainName.toBytes rest).length)
        := by
      have h := ih ((pre ++ [l.length % 256]) ++ l) post n hwfr hfr
      have hb3 : (pre ++ [l.length % 256]) ++ l ++ DomainName.toBytes rest ++
          post = pre ++ DomainName.toBytes (l :: rest) ++ post := by
        rw [toBytes_cons]
        simp
      have hlen : ((pre ++ [l.length % 256]) ++ l).length =
          pre.length + 1 + l.length := by
        simp
        omega
      rw [hb3, hlen] at h
      exact h
    rw [readDomainName_step_label h8 (by omega) (by omega) hb hr]
    simp only [PRes.ok.injEq, Prod.mk.injEq, toBytes_cons, List.length_cons,
      List.length_append]
    exact ⟨trivial, by omega⟩

/-! ## Header counts in the encoded output -/

theorem counts_of_toBytes (h : DNSHeader) (qd an ns ar : Nat)
    (rest : List Nat) :
    readU16 (h.toBytes qd an ns ar ++ rest) 4 = some (qd % 2 ^ 16, 6) ∧
    readU16 (h.toBytes qd an ns ar ++ rest) 6 = some (an % 2 ^ 16, 8) ∧
    readU16 (h.toBytes qd an ns ar ++ rest) 8 = some (ns % 2 ^ 16, 10) ∧
    readU16 (h.toBytes qd an ns ar ++ rest) 10 = some (ar % 2 ^ 16, 12) := by
  refine ⟨?_, ?_, ?_, ?_⟩
  · have e : h.toBytes qd an ns ar ++ rest =
        (u16be h.id ++ [h.byte2, h.byte3]) ++ u16be qd ++
          (u16be an ++ u16be ns ++ u16be ar ++ rest) := by
      simp [DNSHeader.toBytes]
    have hl : (u16be h.id ++ [h.byte2, h.byte3]).length = 4 := by simp [u16be]
    rw [e, show (4 : Nat) = (u16be h.id ++ [h.byte2, h.byte3]).length from
      hl.symm, readU16_u16be, hl]
  · have e : h.toBytes qd an ns ar ++ rest =
        (u16be h.id ++ [h.byte2, h.byte3] ++ u16be qd) ++ u16be an ++
          (u16be ns ++ u16be ar ++ rest) := by
      simp [DNSHeader.toBytes]
    have hl : (u16be h.id ++ [h.byte2, h.byte3] ++ u16be qd).length = 6 := by
      simp [u16be]
    rw [e, show (6 : Nat) =
      (u16be h.id ++ [h.byte2, h.byte3] ++ u16be qd).length from hl.symm,
      readU16_u16be, hl]
  · have e : h.toBytes qd an ns ar ++ rest =
        (u16be h.id ++ [h.byte2, h.byte3] ++ u16be qd ++ u16be an) ++
          u16be ns ++ (u16be ar ++ rest) := by
      simp [DNSHeader.toBytes]
    have hl : (u16be h.id ++ [h.byte2, h.byte3] ++ u16be qd ++
        u16be an).length = 8 := by
      simp [u16be]
    rw [e, show (8 : Nat) = (u16be h.id ++ [h.byte2, h.byte3] ++ u16be qd ++
      u16be an).length from hl.symm, readU16_u16be, hl]
  · have e : h.toBytes qd an ns ar ++ rest =
        (u16be h.id ++ [h.byte2, h.byte3] ++ u16be qd ++ u16be an ++
          u16be ns) ++ u16be ar ++ rest := by
      simp [DNSHeader.toBytes]
    have hl : (u16be h.id ++ [h.byte2, h.byte3] ++ u16be qd ++ u16be an ++
        u16be ns).length = 10 := by
      simp [u16be]
    rw [e, show (10 : Nat) = (u16be h.id ++ [h.byte2, h.byte3] ++ u16be qd ++
      u16be an ++ u16be ns).length from hl.symm, readU16_u16be, hl]

theorem assemble_counts (p : DNSPacket) :
    readU16 p.assemble 4 = some (p.questions.length % 2 ^ 16, 6) ∧
    readU16 p.assemble 6 = some (p.answers.length % 2 ^ 16, 8) ∧
    readU16 p.assemble 8 = some (p.authorities.length % 2 ^ 16, 10) ∧
    readU16 p.assemble 10 = some (p.additionals.length % 2 ^ 16, 12) := by
  have e : p.assemble = p.header.toBytes p.questions.length p.answers.length
      p.authorities.length p.additionals.length ++
      (p.questions.flatMap DNSQuestion.toBytes ++
        p.answers.flatMap DNSResourceRecord.toBytes ++
        p.authorities.flatMap DNSResourceRecord.toBytes ++
        p.additionals.flatMap DNSResourceRecord.toBytes) := by
    simp [DNSPacket.assemble]
  rw [e]
  exact counts_of_toBytes _ _ _ _ _ _

/-! ## Claim C2: the pointer-cycle input never terminates -/

theorem readDomainName_cyc_step (n : Nat) :
    readDomainName (n + 1) cycBuf 12 =
      (match readDomainName n cycBuf 12 with
        | .ok (dn, _) => .ok (dn, 14)
        | .fail => .fail
        | .fuel => .fuel) := rfl

theorem readDomainName_cyc : ∀ n : Nat, readDomainName n cycBuf 12 = .fuel := by
  intro n
  induction n with
  | zero => rfl
  | succ n ih => rw [readDomainName_cyc_step, ih]

theorem question_fromRaw_fuel {fuel : Nat} {buf : List Nat} {pos count : Nat}
    (h : readDomainName fuel buf pos = .fuel) :
    DNSQuestion.fromRaw fuel buf pos (count + 1) = .fuel := by
  unfold DNSQuestion.fromRaw
  rw [h]

/-- C2: the claim says name decoding always terminates — that
`DNSPacket::from_raw` (via `read_domain_name`) either returns a packet or
fails even on a compression-pointer cycle.  The code has no visited-set or
depth bound: on `cycBuf`, whose question name is a pointer targeting its
own offset, the decoder recurses forever — for every fuel the embedded
decoder reports fuel exhaustion, never a result and never an error. -/
theorem c2_pointer_cycle_never_terminates :
    ∀ fuel : Nat, DNSPacket.fromRaw fuel cycBuf = .fuel := by
  intro fuel
  have hh : DNSHeader.fromRaw cycBuf = some (cycHdr, 12) := rfl
  unfold DNSPacket.fromRaw
  rw [hh]
  simp only
  rw [show cycHdr.qdcount = 0 + 1 from rfl,
    question_fromRaw_fuel (readDomainName_cyc fuel)]

/-! ## Claim C4: the tc bit is dropped on serialization -/

/-- C4: the claim says byte 2 of the serialized header equals
`qr<<7 | opcode<<3 | aa<<2 | tc<<1 | rd`, so a header with `tc = 1`
re-emits that bit.  The source writes
`(qr << 7) | (opcode << 3) | (aa << 2) | rd`, omitting `tc`: for the
header whose only set field is `tc = 1`, byte 2 of the output is 0 while
the claimed layout demands 2. -/
theorem c4_tc_bit_not_reemitted :
    (c4Hdr.toBytes 0 0 0 0)[2]? = some 0 ∧
      c4Hdr.qr * 2 ^ 7 + c4Hdr.opcode * 2 ^ 3 + c4Hdr.aa * 2 ^ 2 +
        c4Hdr.tc * 2 + c4Hdr.rd = 2 ∧
      c4Hdr.byte3 = c4Hdr.ra * 2 ^ 7 + c4Hdr.reserved * 2 ^ 4 + c4Hdr.rcode
    := by decide

/-! ## Claim C9: header counts are the section lengths mod 2^16 -/

/-- C9 (counterexample): for the packet with `2 ^ 16` questions, the
16-bit qdcount in the assembled bytes is 0, not the section length, so the
claim as stated fails. -/
theorem c9_counts_truncate_at_65536 :
    ¬ readU16 c9Pkt.assemble 4 = some (c9Pkt.questions.length, 6) := by
  intro hc
  rw [(assemble_counts c9Pkt).1] at hc
  have hl : c9Pkt.questions.length = 2 ^ 16 :=
    List.length_replicate _ _
  rw [hl] at hc
  norm_num at hc

/-- C9 (amended): the four 16-bit counts in the bytes of
`DNSPacket::assemble` equal the lengths of the four sections reduced mod
`2 ^ 16` (hence equal the lengths exactly whenever each section is shorter
than `2 ^ 16`), regardless of the counts stored in `p.header`. -/
theorem c9_section_counts_mod_u16 (p : DNSPacket) :
    readU16 p.assemble 4 = some (p.questions.length % 2 ^ 16, 6) ∧
    readU16 p.assemble 6 = some (p.answers.length % 2 ^ 16, 8) ∧
    readU16 p.assemble 8 = some (p.authorities.length % 2 ^ 16, 10) ∧
    readU16 p.assemble 10 = some (p.additionals.length % 2 ^ 16, 12) :=
  assemble_counts p

/-! ## Claim C1: client collision sends Refused but removes the entry -/

/-- C1: the claim says a datagram from the pending entry's own client gets
a Refused copy of the packet AND leaves the entry undisturbed.  The source
sends the Refused reply but then falls through (there is no `continue`):
for a re-sent plain query — no answers, no authority NS records — the
`Right([])` branch removes the entry and forwards the packet again.  At
this input the step sends the Refused packet and deletes pending entry
7. -/
theorem c1_collision_refused_but_entry_removed :
    (step s1State pktQuery addrA 0 o0).map
        (fun r => ((r.1.idMap 7).isSome, r.2)) =
      some (false, [(addrA, pktRefused), (addrA, pktRefused)]) := rfl

/-! ## Claims C5 and C6: cache TTL rewrite and lazy expiry -/

/-- C5: a record cached at time `t0` with TTL `r` is a hit at any later
time `t < t0 + r`, and the record handed back is the stored record with
its TTL field rewritten to `(t0 + r) - t` whole seconds — which, as an
`Int.toNat`, is exactly `max 0 ((t0 + r) - t)`.  The hypotheses `t0 ≤ t`
(the spec's clock is monotone, so lookups happen at or after insertion)
and `ans.ttl < 2 ^ 32` (the TTL is a `u32`) reflect machine reality. -/
theorem c5_cache_hit_rewrites_ttl (c : Nat × List Nat → Option RdnsCacheEntry)
    (t0 t : Int) (ans : DNSResourceRecord) (h0 : t0 ≤ t)
    (h1 : t < t0 + ans.ttl) (h2 : ans.ttl < 2 ^ 32) :
    (cacheLookup (cacheInsert c t0 ans) t
        (ans.type, toReadableName ans.name)).2 =
      some { ans with ttl := (t0 + ans.ttl - t).toNat } ∧
    (cacheLookup (cacheInsert c t0 ans) t
        (ans.type, toReadableName ans.name)).1 =
      cacheInsert c t0 ans := by
  have hget : cacheInsert c t0 ans (ans.type, toReadableName ans.name) =
      some { expiration := t0 + ans.ttl, record := ans } := by
    simp [cacheInsert, updCache]
  have hlt : ¬ t ≥ t0 + (ans.ttl : Int) := by omega
  constructor
  · rw [cacheLookup, hget]
    simp only [hlt, if_false]
    have hmod : (t0 + (ans.ttl : Int) - t) % (2 ^ 32 : Int) =
        t0 + ans.ttl - t := by
      apply Int.emod_eq_of_lt <;> omega
    rw [hmod]
  · rw [cacheLookup, hget]
    simp only [hlt, if_false]

/-- Witness for C5 at concrete values: insertion at `t0 = 100` with TTL
60, lookup at `t = 130` hits and returns the record with TTL 30. -/
theorem c5_cache_hit_rewrites_ttl_witness :
    (cacheLookup (cacheInsert (fun _ => none) 100 ansRec) 130
        (ansRec.type, toReadableName ansRec.name)).2 =
      some { ansRec with ttl := 30 } :=
  ((c5_cache_hit_rewrites_ttl (fun _ => none) 100 130 ansRec (by decide)
    (by decide) (by decide)).1).trans (by decide)

/-- C6: a lookup of a record cached at time `t0` with TTL `r`, made at any
time `t ≥ t0 + r`, reports a miss and removes the entry from the cache, so
an expired record is never served. -/
theorem c6_expired_entry_miss_and_removed
    (c : Nat × List Nat → Option RdnsCacheEntry) (t0 t : Int)
    (ans : DNSResourceRecord) (h1 : t0 + ans.ttl ≤ t) :
    (cacheLookup (cacheInsert c t0 ans) t
        (ans.type, toReadableName ans.name)).2 = none ∧
    (cacheLookup (cacheInsert c t0 ans) t
        (ans.type, toReadableName ans.name)).1
      (ans.type, toReadableName ans.name) = none := by
  have hget : cacheInsert c t0 ans (ans.type, toReadableName ans.name) =
      some { expiration := t0 + ans.ttl, record := ans } := by
    simp [cacheInsert, updCache]
  have hge : t ≥ t0 + (ans.ttl : Int) := by omega
  constructor
  · rw [cacheLookup, hget]
    simp only [hge, if_true]
  · rw [cacheLookup, hget]
    simp only [hge, if_true]
    simp [updCache]

/-- Witness for C6 at concrete values: insertion at `t0 = 100` with TTL
60, lookup at `t = 160` misses and deletes the entry. -/
theorem c6_expired_entry_miss_and_removed_witness :
    (cacheLookup (cacheInsert (fun _ => none) 100 ansRec) 160
        (ansRec.type, toReadableName ansRec.name)).2 = none ∧
    (cacheLookup (cacheInsert (fun _ => none) 100 ansRec) 160
        (ansRec.type, toReadableName ansRec.name)).1
      (ansRec.type, toReadableName ansRec.name) = none :=
  c6_expired_entry_miss_and_removed (fun _ => none) 100 160 ansRec (by decide)

/-! ## Claim C8: the NS-address helper's two disjoint outcomes -/

theorem mem_nsInsert {acc : List (List Nat)} {r : DNSResourceRecord}
    {x : List Nat} :
    x ∈ nsInsert acc r ↔
      x ∈ acc ∨ (r.type = 2 ∧ ∃ dn, r.rdata = .Ns dn ∧ toReadableName dn = x)
    := by
  unfold nsInsert
  by_cases ht : r.type = 2
  · rw [if_pos ht]
    cases hr : r.rdata with
    | Ns dn =>
      dsimp only
      by_cases hm : toReadableName dn ∈ acc
      · rw [if_pos hm]
        simp only [ht, hr, true_and, DNSRdata.Ns.injEq]
        constructor
        · intro hx
          exact Or.inl hx
        · rintro (hx | ⟨dn', hdn', hx⟩)
          · exact hx
          · subst hdn'
            rw [← hx]
            exact hm
      · rw [if_neg hm]
        simp only [ht, hr, true_and, DNSRdata.Ns.injEq, List.mem_append,
          List.mem_singleton]
        constructor
        · rintro (hx | hx)
          · exact Or.inl hx
          · exact Or.inr ⟨dn, rfl, hx.symm⟩
        · rintro (hx | ⟨dn', hdn', hx⟩)
          · exact Or.inl hx
          · subst hdn'
            exact Or.inr hx.symm
    | A ip => simp [ht, hr]
    | Aaaa ip => simp [ht, hr]
    | Cname dn => simp [ht, hr]
    | Mx p dn => simp [ht, hr]
    | Txt t => simp [ht, hr]
    | Other raw => simp [ht, hr]
  · rw [if_neg ht]
    simp [ht]

theorem mem_foldl_nsInsert (rs : List DNSResourceRecord) :
    ∀ (acc : List (List Nat)) (x : List Nat),
      x ∈ rs.foldl nsInsert acc ↔
        x ∈ acc ∨ ∃ r ∈ rs, r.type = 2 ∧ ∃ dn, r.rdata = .Ns dn ∧
          toReadableName dn = x := by
  induction rs with
  | nil => intro acc x; simp
  | cons r rs ih =>
    intro acc x
    rw [List.foldl_cons, ih, mem_nsInsert]
    constructor
    · rintro ((hx | hx) | ⟨r', hr', hp⟩)
      · exact Or.inl hx
      · exact Or.inr ⟨r, by simp, hx⟩
      · exact Or.inr ⟨r', by simp [hr'], hp⟩
    · rintro (hx | ⟨r', hr', hp⟩)
      · exact Or.inl (Or.inl hx)
      · rcases List.mem_cons.mp hr' with he | hm
        · subst he
          exact Or.inl (Or.inr hp)
        · exact Or.inr ⟨r', hm, hp⟩

theorem glueOf_eq_some {ns : List (List Nat)} {r : DNSResourceRecord}
    {a : Nat} :
    glueOf ns r = some a ↔ r.rdata = .A a ∧ toReadableName r.name ∈ ns := by
  unfold glueOf
  cases hr : r.rdata <;> simp [hr]
  case A ip =>
    by_cases hm : toReadableName r.name ∈ ns
    · simp [hm, eq_comm]
    · simp [hm]

/-- C8: `check_for_ns_addr` yields exactly one of two disjoint outcomes.
If some additional-section A record's owner name (presentation form) is in
the set of names carried by authority-section NS records, it returns
`Left a` with `a` one of those glue addresses; otherwise it returns
`Right ns` with `ns` containing exactly the NS names collected from the
authority section. -/
theorem c8_ns_addr_dichotomy (pkt : DNSPacket) (g : Nat) :
    ((∃ x ∈ pkt.additionals, ∃ ip, x.rdata = .A ip ∧
        toReadableName x.name ∈ pkt.authorities.foldl nsInsert []) →
      ∃ a, checkForNsAddr pkt g = .inl a ∧
        ∃ x ∈ pkt.additionals, x.rdata = .A a ∧
          (∃ r ∈ pkt.authorities, r.type = 2 ∧ ∃ dn, r.rdata = .Ns dn ∧
            toReadableName dn = toReadableName x.name)) ∧
    ((¬ ∃ x ∈ pkt.additionals, ∃ ip, x.rdata = .A ip ∧
        toReadableName x.name ∈ pkt.authorities.foldl nsInsert []) →
      ∃ l, checkForNsAddr pkt g = .inr l ∧
        ∀ nm, nm ∈ l ↔ ∃ r ∈ pkt.authorities, r.type = 2 ∧
          ∃ dn, r.rdata = .Ns dn ∧ toReadableName dn = nm) := by
  constructor
  · intro hglue
    obtain ⟨x, hx, ip, hip, hmem⟩ := hglue
    have hv : glueOf (pkt.authorities.foldl nsInsert []) x = some ip :=
      glueOf_eq_some.mpr ⟨hip, hmem⟩
    have hne : pkt.additionals.filterMap
        (glueOf (pkt.authorities.foldl nsInsert [])) ≠ [] := by
      intro hnil
      have : ip ∈ pkt.additionals.filterMap
          (glueOf (pkt.authorities.foldl nsInsert [])) :=
        List.mem_filterMap.mpr ⟨x, hx, hv⟩
      rw [hnil] at this
      exact absurd this (by simp)
    unfold checkForNsAddr
    rw [if_neg (by simpa [List.isEmpty_iff] using hne)]
    set v := pkt.additionals.filterMap
      (glueOf (pkt.authorities.foldl nsInsert [])) with hvdef
    refine ⟨v.getD (g % v.length) 0, rfl, ?_⟩
    have hlt : g % v.length < v.length := by
      apply Nat.mod_lt
      cases hvv : v with
      | nil => exact absurd hvv hne
      | cons a as => simp
    have hget : v.getD (g % v.length) 0 ∈ v := by
      rw [List.getD_eq_getElem?_getD, List.getElem?_eq_getElem hlt]
      exact List.getElem_mem hlt
    obtain ⟨y, hy, hyv⟩ := List.mem_filterMap.mp hget
    obtain ⟨hrd, hmem2⟩ := glueOf_eq_some.mp hyv
    refine ⟨y, hy, hrd, ?_⟩
    have := (mem_foldl_nsInsert pkt.authorities [] (toReadableName y.name)).mp
      hmem2
    simpa using this
  · intro hnoglue
    have hnil : pkt.additionals.filterMap
        (glueOf (pkt.authorities.foldl nsInsert [])) = [] := by
      rw [List.filterMap_eq_nil_iff]
      intro x hx
      cases hg : glueOf (pkt.authorities.foldl nsInsert []) x with
      | none => rfl
      | some a =>
        obtain ⟨hrd, hmem⟩ := glueOf_eq_some.mp hg
        exact absurd ⟨x, hx, a, hrd, hmem⟩ hnoglue
    unfold checkForNsAddr
    simp only [hnil, List.isEmpty_nil, if_true]
    refine ⟨_, rfl, fun nm => ?_⟩
    rw [mem_foldl_nsInsert]
    simp

/-- Witness for C8 at concrete packets: with glue present the helper
returns the glue address; without glue it returns exactly the NS-name
set. -/
theorem c8_ns_addr_dichotomy_witness :
    (∃ a, checkForNsAddr pktDeleg 0 = .inl a ∧
      ∃ x ∈ pktDeleg.additionals, x.rdata = .A a ∧
        (∃ r ∈ pktDeleg.authorities, r.type = 2 ∧ ∃ dn, r.rdata = .Ns dn ∧
          toReadableName dn = toReadableName x.name)) ∧
    (∃ l, checkForNsAddr pktDelegNoGlue 0 = .inr l ∧
      ∀ nm, nm ∈ l ↔ ∃ r ∈ pktDelegNoGlue.authorities, r.type = 2 ∧
        ∃ dn, r.rdata = .Ns dn ∧ toReadableName dn = nm) := by
  constructor
  · exact (c8_ns_addr_dichotomy pktDeleg 0).1
      ⟨glueRec, by decide, 99, rfl, by decide⟩
  · refine (c8_ns_addr_dichotomy pktDelegNoGlue 0).2 ?_
    rintro ⟨x, hx, -⟩
    simp [pktDelegNoGlue, pktDeleg] at hx

/-! ## Claim C10: fresh-query dispatch and the unchecked questions[0] -/

/-- C10: on the fresh-query path (transaction ID unknown, QR = 0, no
answers) the engine indexes `questions[0]` without a bounds check.  With
at least one question the dispatch step is total; but the twelve-zero-byte
datagram decodes to a well-formed query with `qdcount = 0`, and on it the
step aborts (the embedded step returns `none`, modelling the index
panic), so totality needs the nonempty-questions hypothesis. -/
theorem c10_fresh_dispatch_totality :
    (∀ (s : RState) (recv : DNSPacket) (faddr : SockAddr) (now : Int)
        (o : Oracle), s.idMap recv.header.id = none → recv.header.qr = 0 →
        recv.answers = [] → recv.questions ≠ [] →
        (step s recv faddr now o).isSome) ∧
    DNSPacket.fromRaw 1 zeroBuf = .ok (DNSPacket.new 0 true) ∧
    step initState (DNSPacket.new 0 true) addrA 0 o0 = none := by
  refine ⟨?_, by decide, rfl⟩
  intro s recv faddr now o hid hqr hans hq
  unfold step
  dsimp only
  rw [hid]
  simp only [hqr, hans]
  rw [if_neg (by simp)]
  rw [if_neg (by simp)]
  cases hqs : recv.questions with
  | nil => exact absurd hqs hq
  | cons question rest =>
    simp only
    cases hit : (cacheLookup s.cache now
        (question.qtype, toReadableName question.qname)).2 with
    | some rec => simp [hit]
    | none => simp [hit]

/-- Witness for C10: the totality half applied to the concrete fresh query
`pktQuery` arriving at the empty initial state. -/
theorem c10_fresh_dispatch_totality_witness :
    (step initState pktQuery addrA 0 o0).isSome :=
  c10_fresh_dispatch_totality.1 initState pktQuery addrA 0 o0 rfl rfl rfl
    (by decide)

/-! ## Claim C7: the pending-table stack invariant -/

theorem nonempty_updMap {m : Nat → Option RdnsData}
    (hm : ∀ i e, m i = some e → e.packetStack ≠ []) {k : Nat}
    {v : Option RdnsData} (hv : ∀ e, v = some e → e.packetStack ≠ []) :
    ∀ i e, updMap m k v i = some e → e.packetStack ≠ [] := by
  intro i e hi
  unfold updMap at hi
  by_cases hik : i = k
  · rw [if_pos hik] at hi
    exact hv e hi
  · rw [if_neg hik] at hi
    exact hm i e hi

theorem step_preserves_nonempty {s s' : RState} {recv : DNSPacket}
    {faddr : SockAddr} {now : Int} {o : Oracle}
    {outs : List (SockAddr × DNSPacket)}
    (hstep : step s recv faddr now o = some (s', outs))
    (hs : ∀ i e, s.idMap i = some e → e.packetStack ≠ []) :
    ∀ i e, s'.idMap i = some e → e.packetStack ≠ [] := by
  unfold step at hstep
  dsimp only at hstep
  cases hm : s.idMap recv.header.id with
  | none =>
    rw [hm] at hstep
    dsimp only at hstep
    by_cases hqr : recv.header.qr ≠ 0
    · rw [if_pos hqr] at hstep
      simp only [Option.some.injEq, Prod.mk.injEq] at hstep
      obtain ⟨rfl, -⟩ := hstep
      exact hs
    · rw [if_neg hqr] at hstep
      by_cases hans : recv.answers.length ≠ 0
      · rw [if_pos hans] at hstep
        simp only [Option.some.injEq, Prod.mk.injEq] at hstep
        obtain ⟨rfl, -⟩ := hstep
        exact hs
      · rw [if_neg hans] at hstep
        cases hqs : recv.questions with
        | nil =>
          rw [hqs] at hstep
          simp at hstep
        | cons q qs =>
          rw [hqs] at hstep
          dsimp only at hstep
          cases hcl : cacheLookup s.cache now
              (q.qtype, toReadableName q.qname) with
          | mk cache1 hit =>
            rw [hcl] at hstep
            dsimp only at hstep
            cases hit with
            | some rec =>
              dsimp only at hstep
              simp only [Option.some.injEq, Prod.mk.injEq] at hstep
              obtain ⟨rfl, -⟩ := hstep
              exact hs
            | none =>
              dsimp only at hstep
              simp only [Option.some.injEq, Prod.mk.injEq] at hstep
              obtain ⟨rfl, -⟩ := hstep
              refine nonempty_updMap hs ?_
              intro e he
              simp only [Option.some.injEq] at he
              subst he
              simp
  | some original =>
    rw [hm] at hstep
    dsimp only at hstep
    by_cases hc : faddr = original.srcAddr <;>
      simp only [hc, if_true, if_false] at hstep <;>
      (try dsimp only at hstep)
    case pos =>
      by_cases hans : recv.answers.length ≠ 0
      · rw [if_pos hans] at hstep
        by_cases hlen : original.packetStack.length > 1
        · rw [if_pos hlen] at hstep
          cases hqs : recv.answers with
          | nil => simp [hqs] at hans
          | cons a tail =>
            rw [hqs] at hstep
            (try dsimp only at hstep)
            cases hrd : a.rdata with
            | A ip =>
              rw [hrd] at hstep
              (try dsimp only at hstep)
              cases hlast : original.packetStack.dropLast.getLast? with
              | none =>
                rw [hlast] at hstep
                simp at hstep
              | some top =>
                rw [hlast] at hstep
                (try dsimp only at hstep)
                simp only [Option.some.injEq, Prod.mk.injEq] at hstep
                obtain ⟨rfl, -⟩ := hstep
                refine nonempty_updMap hs ?_
                intro e he
                simp only [Option.some.injEq] at he
                subst he
                dsimp only
                have hdl : original.packetStack.dropLast.length =
                    original.packetStack.length - 1 := by
                  simp
                intro hnil
                rw [hnil] at hdl
                simp at hdl
                omega
            | Aaaa ip =>
              rw [hrd] at hstep
              (try dsimp only at hstep)
              simp only [Option.some.injEq, Prod.mk.injEq] at hstep
              obtain ⟨rfl, -⟩ := hstep
              refine nonempty_updMap hs ?_
              intro e he
              simp at he
            | Cname dn =>
              rw [hrd] at hstep
              (try dsimp only at hstep)
              simp only [Option.some.injEq, Prod.mk.injEq] at hstep
              obtain ⟨rfl, -⟩ := hstep
              refine nonempty_updMap hs ?_
              intro e he
              simp at he
            | Mx pref dn =>
              rw [hrd] at hstep
              (try dsimp only at hstep)
              simp only [Option.some.injEq, Prod.mk.injEq] at hstep
              obtain ⟨rfl, -⟩ := hstep
              refine nonempty_updMap hs ?_
              intro e he
              simp at he
            | Ns dn =>
              rw [hrd] at hstep
              (try dsimp only at hstep)
              simp only [Option.some.injEq, Prod.mk.injEq] at hstep
              obtain ⟨rfl, -⟩ := hstep
              refine nonempty_updMap hs ?_
              intro e he
              simp at he
            | Txt t =>
              rw [hrd] at hstep
              (try dsimp only at hstep)
              simp only [Option.some.injEq, Prod.mk.injEq] at hstep
              obtain ⟨rfl, -⟩ := hstep
              refine nonempty_updMap hs ?_
              intro e he
              simp at he
            | Other raw =>
              rw [hrd] at hstep
              (try dsimp only at hstep)
              simp only [Option.some.injEq, Prod.mk.injEq] at hstep
              obtain ⟨rfl, -⟩ := hstep
              refine nonempty_updMap hs ?_
              intro e he
              simp at he
        · rw [if_neg hlen] at hstep
          (try dsimp only at hstep)
          simp only [Option.some.injEq, Prod.mk.injEq] at hstep
          obtain ⟨rfl, -⟩ := hstep
          refine nonempty_updMap hs ?_
          intro e he
          simp at he
      · rw [if_neg hans] at hstep
        cases hck : checkForNsAddr { recv with header := { recv.header with rcode := 5 } } o.glueIdx with
        | inr names =>
          rw [hck] at hstep
          (try dsimp only at hstep)
          by_cases hne : names.isEmpty
          · rw [if_pos hne] at hstep
            simp only [Option.some.injEq, Prod.mk.injEq] at hstep
            obtain ⟨rfl, -⟩ := hstep
            refine nonempty_updMap hs ?_
            intro e he
            simp at he
          · rw [if_neg hne] at hstep
            (try dsimp only at hstep)
            simp only [Option.some.injEq, Prod.mk.injEq] at hstep
            obtain ⟨rfl, -⟩ := hstep
            refine nonempty_updMap hs ?_
            intro e he
            simp only [Option.some.injEq] at he
            subst he
            simp
        | inl ip =>
          rw [hck] at hstep
          (try dsimp only at hstep)
          cases hlast : original.packetStack.getLast? with
          | none =>
            rw [hlast] at hstep
            simp at hstep
          | some top =>
            rw [hlast] at hstep
            (try dsimp only at hstep)
            simp only [Option.some.injEq, Prod.mk.injEq] at hstep
            obtain ⟨rfl, -⟩ := hstep
            exact hs
    case neg =>
      by_cases hans : recv.answers.length ≠ 0
      · rw [if_pos hans] at hstep
        by_cases hlen : original.packetStack.length > 1
        · rw [if_pos hlen] at hstep
          cases hqs : recv.answers with
          | nil => simp [hqs] at hans
          | cons a tail =>
            rw [hqs] at hstep
            (try dsimp only at hstep)
            cases hrd : a.rdata with
            | A ip =>
              rw [hrd] at hstep
              (try dsimp only at hstep)
              cases hlast : original.packetStack.dropLast.getLast? with
              | none =>
                rw [hlast] at hstep
                simp at hstep
              | some top =>
                rw [hlast] at hstep
                (try dsimp only at hstep)
                simp only [Option.some.injEq, Prod.mk.injEq] at hstep
                obtain ⟨rfl, -⟩ := hstep
                refine nonempty_updMap hs ?_
                intro e he
                simp only [Option.some.injEq] at he
                subst he
                dsimp only
                have hdl : original.packetStack.dropLast.length =
                    original.packetStack.length - 1 := by
                  simp
                intro hnil
                rw [hnil] at hdl
                simp at hdl
                omega
            | Aaaa ip =>
              rw [hrd] at hstep
              (try dsimp only at hstep)
              simp only [Option.some.injEq, Prod.mk.injEq] at hstep
              obtain ⟨rfl, -⟩ := hstep
              refine nonempty_updMap hs ?_
              intro e he
              simp at he
            | Cname dn =>
              rw [hrd] at hstep
              (try dsimp only at hstep)
              simp only [Option.some.injEq, Prod.mk.injEq] at hstep
              obtain ⟨rfl, -⟩ := hstep
              refine nonempty_updMap hs ?_
              intro e he
              simp at he
            | Mx pref dn =>
              rw [hrd] at hstep
              (try dsimp only at hstep)
              simp only [Option.some.injEq, Prod.mk.injEq] at hstep
              obtain ⟨rfl, -⟩ := hstep
              refine nonempty_updMap hs ?_
              intro e he
              simp at he
            | Ns dn =>
              rw [hrd] at hstep
              (try dsimp only at hstep)
              simp only [Option.some.injEq, Prod.mk.injEq] at hstep
              obtain ⟨rfl, -⟩ := hstep
              refine nonempty_updMap hs ?_
              intro e he
              simp at he
            | Txt t =>
              rw [hrd] at hstep
              (try dsimp only at hstep)
              simp only [Option.some.injEq, Prod.mk.injEq] at hstep
              obtain ⟨rfl, -⟩ := hstep
              refine nonempty_updMap hs ?_
              intro e he
              simp at he
            | Other raw =>
              rw [hrd] at hstep
              (try dsimp only at hstep)
              simp only [Option.some.injEq, Prod.mk.injEq] at hstep
              obtain ⟨rfl, -⟩ := hstep
              refine nonempty_updMap hs ?_
              intro e he
              simp at he
        · rw [if_neg hlen] at hstep
          (try dsimp only at hstep)
          simp only [Option.some.injEq, Prod.mk.injEq] at hstep
          obtain ⟨rfl, -⟩ := hstep
          refine nonempty_updMap hs ?_
          intro e he
          simp at he
      · rw [if_neg hans] at hstep
        cases hck : checkForNsAddr recv o.glueIdx with
        | inr names =>
          rw [hck] at hstep
          (try dsimp only at hstep)
          by_cases hne : names.isEmpty
          · rw [if_pos hne] at hstep
            simp only [Option.some.injEq, Prod.mk.injEq] at hstep
            obtain ⟨rfl, -⟩ := hstep
            refine nonempty_updMap hs ?_
            intro e he
            simp at he
          · rw [if_neg hne] at hstep
            (try dsimp only at hstep)
            simp only [Option.some.injEq, Prod.mk.injEq] at hstep
            obtain ⟨rfl, -⟩ := hstep
            refine nonempty_updMap hs ?_
            intro e he
            simp only [Option.some.injEq] at he
            subst he
            simp
        | inl ip =>
          rw [hck] at hstep
          (try dsimp only at hstep)
          cases hlast : original.packetStack.getLast? with
          | none =>
            rw [hlast] at hstep
            simp at hstep
          | some top =>
            rw [hlast] at hstep
            (try dsimp only at hstep)
            simp only [Option.some.injEq, Prod.mk.injEq] at hstep
            obtain ⟨rfl, -⟩ := hstep
            exact hs

/-- C7: (1) in every state the event loop can reach, every pending-table
entry has a nonempty packet stack (the bottom being the original client
query); (2) processing an answer datagram whose first answer is an A
record while the matching entry's stack is deeper than 1 succeeds and
leaves that entry with a stack exactly one element shorter. -/
theorem c7_pending_stack_invariant :
    (∀ s : RState, Reachable s →
      ∀ i e, s.idMap i = some e → e.packetStack ≠ []) ∧
    (∀ (s : RState) (recv : DNSPacket) (faddr : SockAddr) (now : Int)
        (o : Oracle) (e : RdnsData) (a : DNSResourceRecord)
        (tail : List DNSResourceRecord) (ip : Nat),
      s.idMap recv.header.id = some e → e.packetStack.length > 1 →
      recv.answers = a :: tail → a.rdata = .A ip →
      ∃ s' outs, step s recv faddr now o = some (s', outs) ∧
        ∃ e', s'.idMap recv.header.id = some e' ∧
          e'.packetStack.length = e.packetStack.length - 1) := by
  constructor
  · intro s hreach
    induction hreach with
    | init => intro i e he; exact absurd he (by simp [initState])
    | next hr hstep ih => exact step_preserves_nonempty hstep ih
  · intro s recv faddr now o e a tail ip hid hlen hans hrd
    have hstack : e.packetStack.dropLast ≠ [] := by
      intro hnil
      have := congrArg List.length hnil
      simp at this
      omega
    obtain ⟨top, htop⟩ : ∃ top, e.packetStack.dropLast.getLast? = some top
        := by
      cases hl : e.packetStack.dropLast.getLast? with
      | none => exact absurd (List.getLast?_eq_none_iff.mp hl) hstack
      | some t => exact ⟨t, rfl⟩
    unfold step
    dsimp only
    rw [hid]
    dsimp only
    by_cases hc : faddr = e.srcAddr <;>
      simp only [hc, if_true, if_false] <;>
      (try dsimp only) <;>
      rw [if_pos (by simp [hans]), if_pos hlen, hans] <;>
      (try dsimp only) <;>
      rw [hrd] <;>
      (try dsimp only) <;>
      rw [htop] <;>
      (try dsimp only) <;>
      refine ⟨_, _, rfl, ⟨⟨e.srcAddr, e.packetStack.dropLast⟩, ?_, ?_⟩⟩
    · simp [updMap]
    · simp
    · simp [updMap]
    · simp

/-- Witness for C7: the invariant at the (reachable) initial state, and
the pop step on a concrete depth-2 entry when the A answer `pktAnswer`
arrives: the stack length drops from 2 to 1. -/
theorem c7_pending_stack_invariant_witness :
    (∀ i e, initState.idMap i = some e → e.packetStack ≠ []) ∧
    (∃ s' outs, step s2State pktAnswer addrB 0 o0 = some (s', outs) ∧
      ∃ e', s'.idMap pktAnswer.header.id = some e' ∧
        e'.packetStack.length =
          (⟨addrA, [pktQuery, subQueryPkt]⟩ : RdnsData).packetStack.length
            - 1) :=
  ⟨c7_pending_stack_invariant.1 initState Reachable.init,
    c7_pending_stack_invariant.2 s2State pktAnswer addrB 0 o0
      ⟨addrA, [pktQuery, subQueryPkt]⟩ ansRec [] 5 rfl (by decide) rfl rfl⟩

/-! ## Decode-side wellformedness for rdata, records, questions, packets -/

theorem readU128_lt {buf : List Nat} {pos v p1 : Nat}
    (h : readU128 buf pos = some (v, p1)) : v < 2 ^ 128 := by
  unfold readU128 at h
  cases h1 : readU32 buf pos with
  | none => rw [h1] at h; exact absurd h (by simp)
  | some a =>
    obtain ⟨av, ap⟩ := a
    rw [h1] at h
    simp only at h
    cases h2 : readU32 buf ap with
    | none => rw [h2] at h; exact absurd h (by simp)
    | some b =>
      obtain ⟨bv, bp⟩ := b
      rw [h2] at h
      simp only at h
      cases h3 : readU32 buf bp with
      | none => rw [h3] at h; exact absurd h (by simp)
      | some c =>
        obtain ⟨cv, cp⟩ := c
        rw [h3] at h
        simp only at h
        cases h4 : readU32 buf cp with
        | none => rw [h4] at h; exact absurd h (by simp)
        | some d =>
          obtain ⟨dv, dp⟩ := d
          rw [h4] at h
          simp only at h
          simp at h
          have la := readU32_lt h1
          have lb := readU32_lt h2
          have lc := readU32_lt h3
          have ld := readU32_lt h4
          omega

theorem rdataFromRaw_wf {fuel : Nat} {buf : List Nat} {pos t rdl : Nat}
    {rd : DNSRdata} {p : Nat}
    (h : rdataFromRaw fuel buf pos t = .ok ((rdl, rd), p)) :
    WFrdata t rd ∧ rdl < 2 ^ 16 := by
  unfold rdataFromRaw at h
  cases h16 : readU16 buf pos with
  | none => rw [h16] at h; exact absurd h (by simp)
  | some rp =>
    obtain ⟨rdlength, p1⟩ := rp
    rw [h16] at h
    simp only at h
    have hrdl : rdlength < 2 ^ 16 := readU16_lt h16
    by_cases h1 : t = 1
    · rw [if_pos h1] at h
      cases h32 : readU32 buf p1 with
      | none => rw [h32] at h; exact absurd h (by simp)
      | some ipp =>
        obtain ⟨ip, p2⟩ := ipp
        rw [h32] at h
        simp only [PRes.ok.injEq, Prod.mk.injEq] at h
        obtain ⟨⟨hrl, hrdv⟩, -⟩ := h
        subst hrl
        subst hrdv
        exact ⟨⟨h1, readU32_lt h32⟩, hrdl⟩
    · rw [if_neg h1] at h
      by_cases h28 : t = 28
      · rw [if_pos h28] at h
        cases h128 : readU128 buf p1 with
        | none => rw [h128] at h; exact absurd h (by simp)
        | some ipp =>
          obtain ⟨ip, p2⟩ := ipp
          rw [h128] at h
          simp only [PRes.ok.injEq, Prod.mk.injEq] at h
          obtain ⟨⟨hrl, hrdv⟩, -⟩ := h
          subst hrl
          subst hrdv
          exact ⟨⟨h28, readU128_lt h128⟩, hrdl⟩
      · rw [if_neg h28] at h
        by_cases h5 : t = 5
        · rw [if_pos h5] at h
          cases hdn : readDomainName fuel buf p1 with
          | fail => rw [hdn] at h; exact absurd h (by simp)
          | fuel => rw [hdn] at h; exact absurd h (by simp)
          | ok dnp =>
            obtain ⟨dn, p2⟩ := dnp
            rw [hdn] at h
            simp only [PRes.ok.injEq, Prod.mk.injEq] at h
            obtain ⟨⟨hrl, hrdv⟩, -⟩ := h
            subst hrl
            subst hrdv
            exact ⟨⟨h5, readDomainName_wf fuel hdn⟩, hrdl⟩
        · rw [if_neg h5] at h
          by_cases h15 : t = 15
          · rw [if_pos h15] at h
            cases hpf : readU16 buf p1 with
            | none => rw [hpf] at h; exact absurd h (by simp)
            | some pfp =>
              obtain ⟨pref, p2⟩ := pfp
              rw [hpf] at h
              simp only at h
              cases hdn : readDomainName fuel buf p2 with
              | fail => rw [hdn] at h; exact absurd h (by simp)
              | fuel => rw [hdn] at h; exact absurd h (by simp)
              | ok dnp =>
                obtain ⟨dn, p3⟩ := dnp
                rw [hdn] at h
                simp only [PRes.ok.injEq, Prod.mk.injEq] at h
                obtain ⟨⟨hrl, hrdv⟩, -⟩ := h
                subst hrl
                subst hrdv
                exact ⟨⟨h15, readU16_lt hpf, readDomainName_wf fuel hdn⟩,
                  hrdl⟩
          · rw [if_neg h15] at h
            by_cases h2t : t = 2
            · rw [if_pos h2t] at h
              cases hdn : readDomainName fuel buf p1 with
              | fail => rw [hdn] at h; exact absurd h (by simp)
              | fuel => rw [hdn] at h; exact absurd h (by simp)
              | ok dnp =>
                obtain ⟨dn, p2⟩ := dnp
                rw [hdn] at h
                simp only [PRes.ok.injEq, Prod.mk.injEq] at h
                obtain ⟨⟨hrl, hrdv⟩, -⟩ := h
                subst hrl
                subst hrdv
                exact ⟨⟨h2t, readDomainName_wf fuel hdn⟩, hrdl⟩
            · rw [if_neg h2t] at h
              by_cases h16t : t = 16
              · rw [if_pos h16t] at h
                cases hby : readBytes buf p1 rdlength with
                | none => rw [hby] at h; exact absurd h (by simp)
                | some sp =>
                  obtain ⟨sv, p2⟩ := sp
                  rw [hby] at h
                  simp only [PRes.ok.injEq, Prod.mk.injEq] at h
                  obtain ⟨⟨hrl, hrdv⟩, -⟩ := h
                  subst hrl
                  subst hrdv
                  obtain ⟨hlen, hbts⟩ := readBytes_spec hby
                  exact ⟨⟨h16t, by omega, hbts⟩, hrdl⟩
              · rw [if_neg h16t] at h
                cases hby : readBytes buf p1 rdlength with
                | none => rw [hby] at h; exact absurd h (by simp)
                | some sp =>
                  obtain ⟨sv, p2⟩ := sp
                  rw [hby] at h
                  simp only [PRes.ok.injEq, Prod.mk.injEq] at h
                  obtain ⟨⟨hrl, hrdv⟩, -⟩ := h
                  subst hrl
                  subst hrdv
                  obtain ⟨hlen, hbts⟩ := readBytes_spec hby
                  exact ⟨⟨h1, h28, h5, h15, h2t, h16t, by omega, hbts⟩, hrdl⟩

theorem rrFromRaw_wf {fuel : Nat} {buf : List Nat} {pos : Nat}
    {r : DNSResourceRecord} {p : Nat}
    (h : DNSResourceRecord.fromRaw fuel buf pos = .ok (r, p)) :
    WFrecord r := by
  unfold DNSResourceRecord.fromRaw at h
  cases hdn : readDomainName fuel buf pos with
  | fail => rw [hdn] at h; exact absurd h (by simp)
  | fuel => rw [hdn] at h; exact absurd h (by simp)
  | ok dnp =>
    obtain ⟨nm, p1⟩ := dnp
    rw [hdn] at h
    simp only at h
    cases ht : readU16 buf p1 with
    | none => rw [ht] at h; exact absurd h (by simp)
    | some tp =>
      obtain ⟨rtype, p2⟩ := tp
      rw [ht] at h
      simp only at h
      cases hcl : readU16 buf p2 with
      | none => rw [hcl] at h; exact absurd h (by simp)
      | some cp =>
        obtain ⟨rclass, p3⟩ := cp
        rw [hcl] at h
        simp only at h
        cases httl : readU32 buf p3 with
        | none => rw [httl] at h; exact absurd h (by simp)
        | some tlp =>
          obtain ⟨ttl, p4⟩ := tlp
          rw [httl] at h
          simp only at h
          cases hrda : rdataFromRaw fuel buf p4 rtype with
          | fail => rw [hrda] at h; exact absurd h (by simp)
          | fuel => rw [hrda] at h; exact absurd h (by simp)
          | ok rdp =>
            obtain ⟨⟨rdlength, rdata⟩, p5⟩ := rdp
            rw [hrda] at h
            simp only [PRes.ok.injEq, Prod.mk.injEq] at h
            obtain ⟨hr, -⟩ := h
            subst hr
            obtain ⟨hwfr, -⟩ := rdataFromRaw_wf hrda
            exact ⟨readDomainName_wf fuel hdn, readU16_lt ht, readU16_lt hcl,
              readU32_lt httl, hwfr⟩

theorem rrFromRawMulti_wf {fuel : Nat} {buf : List Nat} :
    ∀ {count pos : Nat} {rs : List DNSResourceRecord} {p : Nat},
      DNSResourceRecord.fromRawMulti fuel buf pos count = .ok (rs, p) →
      (∀ r ∈ rs, WFrecord r) ∧ rs.length = count := by
  intro count
  induction count with
  | zero =>
    intro pos rs p h
    unfold DNSResourceRecord.fromRawMulti at h
    simp only [PRes.ok.injEq, Prod.mk.injEq] at h
    obtain ⟨⟨hr, -⟩, -⟩ : (([] : List DNSResourceRecord) = rs ∧ pos = p) ∧
        True := ⟨h, trivial⟩
    subst hr
    exact ⟨by simp, rfl⟩
  | succ n ih =>
    intro pos rs p h
    unfold DNSResourceRecord.fromRawMulti at h
    cases hr1 : DNSResourceRecord.fromRaw fuel buf pos with
    | fail => rw [hr1] at h; exact absurd h (by simp)
    | fuel => rw [hr1] at h; exact absurd h (by simp)
    | ok rp =>
      obtain ⟨r, p1⟩ := rp
      rw [hr1] at h
      simp only at h
      cases hrs : DNSResourceRecord.fromRawMulti fuel buf p1 n with
      | fail => rw [hrs] at h; exact absurd h (by simp)
      | fuel => rw [hrs] at h; exact absurd h (by simp)
      | ok rsp =>
        obtain ⟨rest, p2⟩ := rsp
        rw [hrs] at h
        simp only [PRes.ok.injEq, Prod.mk.injEq] at h
        obtain ⟨hr2, -⟩ := h
        subst hr2
        obtain ⟨hall, hlen⟩ := ih hrs
        refine ⟨?_, by simp [hlen]⟩
        intro x hx
        rcases List.mem_cons.mp hx with he | hm
        · subst he
          exact rrFromRaw_wf hr1
        · exact hall x hm

theorem questionsFromRaw_wf {fuel : Nat} {buf : List Nat} :
    ∀ {count pos : Nat} {qs : List DNSQuestion} {p : Nat},
      DNSQuestion.fromRaw fuel buf pos count = .ok (qs, p) →
      (∀ q ∈ qs, WFquestion q) ∧ qs.length = count := by
  intro count
  induction count with
  | zero =>
    intro pos qs p h
    unfold DNSQuestion.fromRaw at h
    simp only [PRes.ok.injEq, Prod.mk.injEq] at h
    obtain ⟨⟨hr, -⟩, -⟩ : (([] : List DNSQuestion) = qs ∧ pos = p) ∧ True :=
      ⟨h, trivial⟩
    subst hr
    exact ⟨by simp, rfl⟩
  | succ n ih =>
    intro pos qs p h
    unfold DNSQuestion.fromRaw at h
    cases hdn : readDomainName fuel buf pos with
    | fail => rw [hdn] at h; exact absurd h (by simp)
    | fuel => rw [hdn] at h; exact absurd h (by simp)
    | ok dnp =>
      obtain ⟨nm, p1⟩ := dnp
      rw [hdn] at h
      simp only at h
      cases ht : readU16 buf p1 with
      | none => rw [ht] at h; exact absurd h (by simp)
      | some tp =>
        obtain ⟨qtype, p2⟩ := tp
        rw [ht] at h
        simp only at h
        cases hc : readU16 buf p2 with
        | none => rw [hc] at h; exact absurd h (by simp)
        | some cp =>
          obtain ⟨qclass, p3⟩ := cp
          rw [hc] at h
          simp only at h
          cases hqs : DNSQuestion.fromRaw fuel buf p3 n with
          | fail => rw [hqs] at h; exact absurd h (by simp)
          | fuel => rw [hqs] at h; exact absurd h (by simp)
          | ok qsp =>
            obtain ⟨rest, p4⟩ := qsp
            rw [hqs] at h
            simp only [PRes.ok.injEq, Prod.mk.injEq] at h
            obtain ⟨hr2, -⟩ := h
            subst hr2
            obtain ⟨hall, hlen⟩ := ih hqs
            refine ⟨?_, by simp [hlen]⟩
            intro x hx
            rcases List.mem_cons.mp hx with he | hm
            · subst he
              exact ⟨readDomainName_wf fuel hdn, readU16_lt ht,
                readU16_lt hc⟩
            · exact hall x hm

theorem headerFromRaw_counts_lt {buf : List Nat} {h : DNSHeader} {p : Nat}
    (hh : DNSHeader.fromRaw buf = some (h, p)) :
    h.qdcount < 2 ^ 16 ∧ h.ancount < 2 ^ 16 ∧ h.nscount < 2 ^ 16 ∧
      h.arcount < 2 ^ 16 := by
  unfold DNSHeader.fromRaw at hh
  cases h0 : readU16 buf 0 with
  | none => rw [h0] at hh; exact absurd hh (by simp)
  | some idp =>
    obtain ⟨idv, p1⟩ := idp
    rw [h0] at hh
    simp only at hh
    cases h1 : readU8 buf p1 with
    | none => rw [h1] at hh; exact absurd hh (by simp)
    | some t1p =>
      obtain ⟨tmp1, p2⟩ := t1p
      rw [h1] at hh
      simp only at hh
      cases h2 : readU8 buf p2 with
      | none => rw [h2] at hh; exact absurd hh (by simp)
      | some t2p =>
        obtain ⟨tmp2, p3⟩ := t2p
        rw [h2] at hh
        simp only at hh
        cases h3 : readU16 buf p3 with
        | none => rw [h3] at hh; exact absurd hh (by simp)
        | some qdp =>
          obtain ⟨qd, p4⟩ := qdp
          rw [h3] at hh
          simp only at hh
          cases h4 : readU16 buf p4 with
          | none => rw [h4] at hh; exact absurd hh (by simp)
          | some anp =>
            obtain ⟨an, p5⟩ := anp
            rw [h4] at hh
            simp only at hh
            cases h5 : readU16 buf p5 with
            | none => rw [h5] at hh; exact absurd hh (by simp)
            | some nsp =>
              obtain ⟨ns, p6⟩ := nsp
              rw [h5] at hh
              simp only at hh
              cases h6 : readU16 buf p6 with
              | none => rw [h6] at hh; exact absurd hh (by simp)
              | some arp =>
                obtain ⟨ar, p7⟩ := arp
                rw [h6] at hh
                simp only [Option.some.injEq, Prod.mk.injEq] at hh
                obtain ⟨hr, -⟩ := hh
                subst hr
                exact ⟨readU16_lt h3, readU16_lt h4, readU16_lt h5,
                  readU16_lt h6⟩

theorem fromRaw_wf {fuel : Nat} {buf : List Nat} {m : DNSPacket}
    (h : DNSPacket.fromRaw fuel buf = .ok m) : WFpacket m := by
  unfold DNSPacket.fromRaw at h
  cases hh : DNSHeader.fromRaw buf with
  | none => rw [hh] at h; exact absurd h (by simp)
  | some hp =>
    obtain ⟨hdr, p0⟩ := hp
    rw [hh] at h
    simp only at h
    cases hq : DNSQuestion.fromRaw fuel buf p0 hdr.qdcount with
    | fail => rw [hq] at h; exact absurd h (by simp)
    | fuel => rw [hq] at h; exact absurd h (by simp)
    | ok qp =>
      obtain ⟨qs, p1⟩ := qp
      rw [hq] at h
      simp only at h
      cases ha : DNSResourceRecord.fromRawMulti fuel buf p1 hdr.ancount with
      | fail => rw [ha] at h; exact absurd h (by simp)
      | fuel => rw [ha] at h; exact absurd h (by simp)
      | ok ap =>
        obtain ⟨ans, p2⟩ := ap
        rw [ha] at h
        simp only at h
        cases hau : DNSResourceRecord.fromRawMulti fuel buf p2 hdr.nscount
            with
        | fail => rw [hau] at h; exact absurd h (by simp)
        | fuel => rw [hau] at h; exact absurd h (by simp)
        | ok aup =>
          obtain ⟨auth, p3⟩ := aup
          rw [hau] at h
          simp only at h
          cases had : DNSResourceRecord.fromRawMulti fuel buf p3 hdr.arcount
              with
          | fail => rw [had] at h; exact absurd h (by simp)
          | fuel => rw [had] at h; exact absurd h (by simp)
          | ok adp =>
            obtain ⟨add, p4⟩ := adp
            rw [had] at h
            simp only [PRes.ok.injEq] at h
            subst h
            obtain ⟨hc1, hc2, hc3, hc4⟩ := headerFromRaw_counts_lt hh
            obtain ⟨hqw, hql⟩ := questionsFromRaw_wf hq
            obtain ⟨haw, hal⟩ := rrFromRawMulti_wf ha
            obtain ⟨hauw, haul⟩ := rrFromRawMulti_wf hau
            obtain ⟨hadw, hadl⟩ := rrFromRawMulti_wf had
            exact ⟨by rw [hql]; exact hc1, by rw [hal]; exact hc2,
              by rw [haul]; exact hc3, by rw [hadl]; exact hc4,
              hqw, haw, hauw, hadw⟩

/-! ## Encode-side: the assembled bytes parse back -/

theorem wfWireType {t : Nat} {rd : DNSRdata} (hwf : WFrdata t rd) :
    rd.getTypeNum.getD t = t := by
  cases rd <;> simp [DNSRdata.getTypeNum]
  case A ip => exact hwf.1.symm
  case Aaaa ip => exact hwf.1.symm
  case Cname dn => exact hwf.1.symm
  case Mx pref dn => exact hwf.1.symm
  case Ns dn => exact hwf.1.symm
  case Txt s => exact hwf.1.symm

theorem rdata_toBytes_eq (rd : DNSRdata) :
    rd.toBytes = u16be rd.payload.length ++ rd.payload := rfl

theorem rdataFromRaw_encode (rd : DNSRdata) (t : Nat) (pre post : List Nat)
    (fuel : Nat) (hwf : WFrdata t rd) (hfuel : rdNameLen rd < fuel) :
    rdataFromRaw fuel (pre ++ rd.toBytes ++ post) pre.length t =
      .ok ((rd.payload.length % 2 ^ 16, rd),
        pre.length + rd.toBytes.length) := by
  have e1 : pre ++ rd.toBytes ++ post =
      pre ++ u16be rd.payload.length ++ (rd.payload ++ post) := by
    rw [rdata_toBytes_eq]
    simp
  have hl1 : (pre ++ u16be rd.payload.length).length = pre.length + 2 := by
    simp [u16be]
  have hlen : rd.toBytes.length = 2 + rd.payload.length := by
    rw [rdata_toBytes_eq]
    simp [u16be]
    omega
  unfold rdataFromRaw
  rw [e1, readU16_u16be]
  simp only
  cases rd with
  | A ip =>
    obtain ⟨ht, hip⟩ := hwf
    subst ht
    rw [if_pos rfl]
    have e2 : pre ++ u16be (DNSRdata.payload (.A ip)).length ++
        (DNSRdata.payload (.A ip) ++ post) =
        (pre ++ u16be (DNSRdata.payload (.A ip)).length) ++ u32be ip ++ post
        := by
      simp [DNSRdata.payload]
    rw [e2, show pre.length + 2 =
        (pre ++ u16be (DNSRdata.payload (.A ip)).length).length from
        hl1.symm, readU32_u32be, hl1, Nat.mod_eq_of_lt hip]
    rw [show pre.length + 2 + 4 =
        pre.length + (DNSRdata.toBytes (.A ip)).length by
      simp [rdata_toBytes_eq, DNSRdata.payload, u16be, u32be] <;> omega]
  | Aaaa ip =>
    obtain ⟨ht, hip⟩ := hwf
    subst ht
    rw [if_neg (by norm_num), if_pos rfl]
    have e2 : pre ++ u16be (DNSRdata.payload (.Aaaa ip)).length ++
        (DNSRdata.payload (.Aaaa ip) ++ post) =
        (pre ++ u16be (DNSRdata.payload (.Aaaa ip)).length) ++ u128be ip ++
          post := by
      simp [DNSRdata.payload]
    rw [e2, show pre.length + 2 =
        (pre ++ u16be (DNSRdata.payload (.Aaaa ip)).length).length from
        hl1.symm, readU128_u128be _ _ _ hip, hl1]
    rw [show pre.length + 2 + 16 =
        pre.length + (DNSRdata.toBytes (.Aaaa ip)).length by
      simp [rdata_toBytes_eq, DNSRdata.payload, u16be, u32be, u128be] <;>
        omega]
  | Cname dn =>
    obtain ⟨ht, hdn⟩ := hwf
    subst ht
    rw [if_neg (by norm_num), if_neg (by norm_num), if_pos rfl]
    have e2 : pre ++ u16be (DNSRdata.payload (.Cname dn)).length ++
        (DNSRdata.payload (.Cname dn) ++ post) =
        (pre ++ u16be (DNSRdata.payload (.Cname dn)).length) ++
          DomainName.toBytes dn ++ post := by
      simp [DNSRdata.payload]
    rw [e2, show pre.length + 2 =
        (pre ++ u16be (DNSRdata.payload (.Cname dn)).length).length from
        hl1.symm, readDomainName_encode dn _ _ _ hdn hfuel, hl1]
    rw [show pre.length + 2 + (DomainName.toBytes dn).length =
        pre.length + (DNSRdata.toBytes (.Cname dn)).length by
      simp [rdata_toBytes_eq, DNSRdata.payload, u16be] <;> omega]
  | Mx pref dn =>
    obtain ⟨ht, hpref, hdn⟩ := hwf
    subst ht
    rw [if_neg (by norm_num), if_neg (by norm_num), if_neg (by norm_num),
      if_pos rfl]
    have e2 : pre ++ u16be (DNSRdata.payload (.Mx pref dn)).length ++
        (DNSRdata.payload (.Mx pref dn) ++ post) =
        (pre ++ u16be (DNSRdata.payload (.Mx pref dn)).length) ++
          u16be pref ++ (DomainName.toBytes dn ++ post) := by
      simp [DNSRdata.payload]
    have hl2 : ((pre ++ u16be (DNSRdata.payload (.Mx pref dn)).length) ++
        u16be pref).length = pre.length + 4 := by
      simp [u16be]
    rw [e2, show pre.length + 2 =
        (pre ++ u16be (DNSRdata.payload (.Mx pref dn)).length).length from
        hl1.symm, readU16_u16be, hl1]
    simp only
    have e3 : (pre ++ u16be (DNSRdata.payload (.Mx pref dn)).length) ++
        u16be pref ++ (DomainName.toBytes dn ++ post) =
        ((pre ++ u16be (DNSRdata.payload (.Mx pref dn)).length) ++
          u16be pref) ++ DomainName.toBytes dn ++ post := by
      simp
    rw [e3, show pre.length + 2 + 2 =
        ((pre ++ u16be (DNSRdata.payload (.Mx pref dn)).length) ++
          u16be pref).length by rw [hl2],
      readDomainName_encode dn _ _ _ hdn hfuel, hl2,
      Nat.mod_eq_of_lt hpref]
    rw [show pre.length + 4 + (DomainName.toBytes dn).length =
        pre.length + (DNSRdata.toBytes (.Mx pref dn)).length by
      simp [rdata_toBytes_eq, DNSRdata.payload, u16be] <;> omega]
  | Ns dn =>
    obtain ⟨ht, hdn⟩ := hwf
    subst ht
    rw [if_neg (by norm_num), if_neg (by norm_num), if_neg (by norm_num),
      if_neg (by norm_num), if_pos rfl]
    have e2 : pre ++ u16be (DNSRdata.payload (.Ns dn)).length ++
        (DNSRdata.payload (.Ns dn) ++ post) =
        (pre ++ u16be (DNSRdata.payload (.Ns dn)).length) ++
          DomainName.toBytes dn ++ post := by
      simp [DNSRdata.payload]
    rw [e2, show pre.length + 2 =
        (pre ++ u16be (DNSRdata.payload (.Ns dn)).length).length from
        hl1.symm, readDomainName_encode dn _ _ _ hdn hfuel, hl1]
    rw [show pre.length + 2 + (DomainName.toBytes dn).length =
        pre.length + (DNSRdata.toBytes (.Ns dn)).length by
      simp [rdata_toBytes_eq, DNSRdata.payload, u16be] <;> omega]
  | Txt s =>
    obtain ⟨ht, hslen, hsb⟩ := hwf
    subst ht
    rw [if_neg (by norm_num), if_neg (by norm_num), if_neg (by norm_num),
      if_neg (by norm_num), if_neg (by norm_num), if_pos rfl]
    have hmod : (DNSRdata.payload (.Txt s)).length % 2 ^ 16 = s.length := by
      simp only [DNSRdata.payload]
      omega
    have e2 : pre ++ u16be (DNSRdata.payload (.Txt s)).length ++
        (DNSRdata.payload (.Txt s) ++ post) =
        (pre ++ u16be (DNSRdata.payload (.Txt s)).length) ++ s ++ post := by
      simp [DNSRdata.payload]
    rw [hmod, e2, show pre.length + 2 =
        (pre ++ u16be (DNSRdata.payload (.Txt s)).length).length from
        hl1.symm, readBytes_at _ _ _ hsb, hl1]
    dsimp only
    rw [show pre.length + 2 + s.length =
        pre.length + (DNSRdata.toBytes (.Txt s)).length by
      simp [rdata_toBytes_eq, DNSRdata.payload, u16be] <;> omega]
  | Other raw =>
    obtain ⟨h1, h28, h5, h15, h2t, h16t, hrlen, hrb⟩ := hwf
    rw [if_neg h1, if_neg h28, if_neg h5, if_neg h15, if_neg h2t,
      if_neg h16t]
    have hmod : (DNSRdata.payload (.Other raw)).length % 2 ^ 16 = raw.length
        := by
      simp only [DNSRdata.payload]
      omega
    have e2 : pre ++ u16be (DNSRdata.payload (.Other raw)).length ++
        (DNSRdata.payload (.Other raw) ++ post) =
        (pre ++ u16be (DNSRdata.payload (.Other raw)).length) ++ raw ++ post
        := by
      simp [DNSRdata.payload]
    rw [hmod, e2, show pre.length + 2 =
        (pre ++ u16be (DNSRdata.payload (.Other raw)).length).length from
        hl1.symm, readBytes_at _ _ _ hrb, hl1]
    dsimp only
    rw [show pre.length + 2 + raw.length =
        pre.length + (DNSRdata.toBytes (.Other raw)).length by
      simp [rdata_toBytes_eq, DNSRdata.payload, u16be] <;> omega]

theorem rrFromRaw_encode (r : DNSResourceRecord) (pre post : List Nat)
    (fuel : Nat) (hwf : WFrecord r) (hfuel : rrNameLens r < fuel) :
    DNSResourceRecord.fromRaw fuel (pre ++ r.toBytes ++ post) pre.length =
      .ok (reencRR r, pre.length + r.toBytes.length) := by
  obtain ⟨hwn, hwt16, hwc16, hwttl, hwrd⟩ := hwf
  have hwt : r.rdata.getTypeNum.getD r.type = r.type := wfWireType hwrd
  have hnf : r.name.length < fuel := by
    unfold rrNameLens at hfuel
    omega
  have hdf : rdNameLen r.rdata < fuel := by
    unfold rrNameLens at hfuel
    omega
  have e1 : pre ++ r.toBytes ++ post =
      pre ++ DomainName.toBytes r.name ++ (u16be r.type ++ (u16be r.class' ++
        (u32be r.ttl ++ (r.rdata.toBytes ++ post)))) := by
    simp [DNSResourceRecord.toBytes, hwt]
  have l1 : (pre ++ DomainName.toBytes r.name).length =
      pre.length + (DomainName.toBytes r.name).length := by
    simp
  have e2 : pre ++ r.toBytes ++ post =
      (pre ++ DomainName.toBytes r.name) ++ u16be r.type ++ (u16be r.class'
        ++ (u32be r.ttl ++ (r.rdata.toBytes ++ post))) := by
    simp [DNSResourceRecord.toBytes, hwt]
  have l2 : ((pre ++ DomainName.toBytes r.name) ++ u16be r.type).length =
      pre.length + (DomainName.toBytes r.name).length + 2 := by
    simp [u16be]
    omega
  have e3 : pre ++ r.toBytes ++ post =
      ((pre ++ DomainName.toBytes r.name) ++ u16be r.type) ++ u16be r.class'
        ++ (u32be r.ttl ++ (r.rdata.toBytes ++ post)) := by
    simp [DNSResourceRecord.toBytes, hwt]
  have l3 : (((pre ++ DomainName.toBytes r.name) ++ u16be r.type) ++
      u16be r.class').length =
      pre.length + (DomainName.toBytes r.name).length + 4 := by
    simp [u16be]
    omega
  have e4 : pre ++ r.toBytes ++ post =
      (((pre ++ DomainName.toBytes r.name) ++ u16be r.type) ++
        u16be r.class') ++ u32be r.ttl ++ (r.rdata.toBytes ++ post) := by
    simp [DNSResourceRecord.toBytes, hwt]
  have l4 : ((((pre ++ DomainName.toBytes r.name) ++ u16be r.type) ++
      u16be r.class') ++ u32be r.ttl).length =
      pre.length + (DomainName.toBytes r.name).length + 8 := by
    simp [u16be, u32be]
    omega
  have e5 : pre ++ r.toBytes ++ post =
      ((((pre ++ DomainName.toBytes r.name) ++ u16be r.type) ++
        u16be r.class') ++ u32be r.ttl) ++ r.rdata.toBytes ++ post := by
    simp [DNSResourceRecord.toBytes, hwt]
  unfold DNSResourceRecord.fromRaw
  conv_lhs => rw [e1]
  rw [readDomainName_encode r.name pre _ fuel hwn hnf]
  simp only
  rw [show pre.length + (DomainName.toBytes r.name).length =
      (pre ++ DomainName.toBytes r.name).length from l1.symm]
  rw [show pre ++ DomainName.toBytes r.name ++ (u16be r.type ++
      (u16be r.class' ++ (u32be r.ttl ++ (DNSRdata.toBytes r.rdata ++
        post)))) = (pre ++ DomainName.toBytes r.name) ++ u16be r.type ++
      (u16be r.class' ++ (u32be r.ttl ++ (DNSRdata.toBytes r.rdata ++
        post))) by simp]
  rw [readU16_u16be, Nat.mod_eq_of_lt hwt16, l1]
  simp only
  rw [show pre.length + (DomainName.toBytes r.name).length + 2 =
      ((pre ++ DomainName.toBytes r.name) ++ u16be r.type).length from
      l2.symm]
  rw [show (pre ++ DomainName.toBytes r.name) ++ u16be r.type ++
      (u16be r.class' ++ (u32be r.ttl ++ (DNSRdata.toBytes r.rdata ++
        post))) = ((pre ++ DomainName.toBytes r.name) ++ u16be r.type) ++
      u16be r.class' ++ (u32be r.ttl ++ (DNSRdata.toBytes r.rdata ++ post))
      by simp]
  rw [readU16_u16be, Nat.mod_eq_of_lt hwc16, l2]
  simp only
  rw [show pre.length + (DomainName.toBytes r.name).length + 2 + 2 =
      (((pre ++ DomainName.toBytes r.name) ++ u16be r.type) ++
        u16be r.class').length from (by rw [l3])]
  rw [show ((pre ++ DomainName.toBytes r.name) ++ u16be r.type) ++
      u16be r.class' ++ (u32be r.ttl ++ (DNSRdata.toBytes r.rdata ++ post))
      = (((pre ++ DomainName.toBytes r.name) ++ u16be r.type) ++
        u16be r.class') ++ u32be r.ttl ++ (DNSRdata.toBytes r.rdata ++
        post) by simp]
  rw [readU32_u32be, Nat.mod_eq_of_lt hwttl, l3]
  simp only
  rw [show pre.length + (DomainName.toBytes r.name).length + 4 + 4 =
      ((((pre ++ DomainName.toBytes r.name) ++ u16be r.type) ++
        u16be r.class') ++ u32be r.ttl).length from (by rw [l4])]
  rw [show (((pre ++ DomainName.toBytes r.name) ++ u16be r.type) ++
      u16be r.class') ++ u32be r.ttl ++ (DNSRdata.toBytes r.rdata ++ post)
      = ((((pre ++ DomainName.toBytes r.name) ++ u16be r.type) ++
        u16be r.class') ++ u32be r.ttl) ++ DNSRdata.toBytes r.rdata ++ post
      by simp]
  rw [rdataFromRaw_encode r.rdata r.type _ post fuel hwrd hdf, l4]
  simp only
  rw [show pre.length + (DomainName.toBytes r.name).length + 8 +
      (DNSRdata.toBytes r.rdata).length = pre.length + r.toBytes.length by
    simp [DNSResourceRecord.toBytes, hwt, u16be, u32be] <;> omega]
  rfl

theorem rrFromRawMulti_encode (rs : List DNSResourceRecord) :
    ∀ (pre post : List Nat) (fuel : Nat),
      (∀ r ∈ rs, WFrecord r) → (∀ r ∈ rs, rrNameLens r < fuel) →
      DNSResourceRecord.fromRawMulti fuel
          (pre ++ rs.flatMap DNSResourceRecord.toBytes ++ post) pre.length
          rs.length =
        .ok (rs.map reencRR,
          pre.length + (rs.flatMap DNSResourceRecord.toBytes).length) := by
  induction rs with
  | nil =>
    intro pre post fuel _ _
    unfold DNSResourceRecord.fromRawMulti
    simp
  | cons r rs ih =>
    intro pre post fuel hwf hfl
    have e1 : pre ++ (r :: rs).flatMap DNSResourceRecord.toBytes ++ post =
        pre ++ r.toBytes ++
          (rs.flatMap DNSResourceRecord.toBytes ++ post) := by
      simp
    have e2 : pre ++ r.toBytes ++
        (rs.flatMap DNSResourceRecord.toBytes ++ post) =
        (pre ++ r.toBytes) ++ rs.flatMap DNSResourceRecord.toBytes ++ post
        := by
      simp
    have l1 : (pre ++ r.toBytes).length = pre.length + r.toBytes.length := by
      simp
    show DNSResourceRecord.fromRawMulti fuel _ pre.length (rs.length + 1) = _
    unfold DNSResourceRecord.fromRawMulti
    rw [e1, rrFromRaw_encode r pre _ fuel (hwf r (by simp))
      (hfl r (by simp))]
    simp only
    rw [show pre.length + r.toBytes.length = (pre ++ r.toBytes).length from
      l1.symm, e2, ih (pre ++ r.toBytes) post fuel
      (fun x hx => hwf x (by simp [hx]))
      (fun x hx => hfl x (by simp [hx])), l1]
    simp only
    rw [show pre.length + r.toBytes.length +
        (rs.flatMap DNSResourceRecord.toBytes).length =
        pre.length + ((r :: rs).flatMap DNSResourceRecord.toBytes).length by
      simp <;> omega]
    rfl

theorem qFromRaw_encode (q : DNSQuestion) (pre post : List Nat) (fuel : Nat)
    (hwf : WFquestion q) (hfl : q.qname.length < fuel) :
    DNSQuestion.fromRaw fuel (pre ++ q.toBytes ++ post) pre.length 1 =
      .ok ([q], pre.length + q.toBytes.length) := by
  obtain ⟨hwn, ht16, hc16⟩ := hwf
  have e1 : pre ++ q.toBytes ++ post =
      pre ++ DomainName.toBytes q.qname ++ (u16be q.qtype ++
        (u16be q.qclass ++ post)) := by
    simp [DNSQuestion.toBytes]
  have l1 : (pre ++ DomainName.toBytes q.qname).length =
      pre.length + (DomainName.toBytes q.qname).length := by
    simp
  have l2 : ((pre ++ DomainName.toBytes q.qname) ++ u16be q.qtype).length =
      pre.length + (DomainName.toBytes q.qname).length + 2 := by
    simp [u16be]
    omega
  show DNSQuestion.fromRaw fuel _ pre.length (0 + 1) = _
  unfold DNSQuestion.fromRaw
  rw [e1, readDomainName_encode q.qname pre _ fuel hwn hfl]
  simp only
  rw [show pre.length + (DomainName.toBytes q.qname).length =
      (pre ++ DomainName.toBytes q.qname).length from l1.symm]
  rw [show pre ++ DomainName.toBytes q.qname ++ (u16be q.qtype ++
      (u16be q.qclass ++ post)) = (pre ++ DomainName.toBytes q.qname) ++
      u16be q.qtype ++ (u16be q.qclass ++ post) by simp]
  rw [readU16_u16be, Nat.mod_eq_of_lt ht16, l1]
  simp only
  rw [show pre.length + (DomainName.toBytes q.qname).length + 2 =
      ((pre ++ DomainName.toBytes q.qname) ++ u16be q.qtype).length from
      (by rw [l2])]
  rw [show (pre ++ DomainName.toBytes q.qname) ++ u16be q.qtype ++
      (u16be q.qclass ++ post) = ((pre ++ DomainName.toBytes q.qname) ++
      u16be q.qtype) ++ u16be q.qclass ++ post by simp]
  rw [readU16_u16be, Nat.mod_eq_of_lt hc16, l2]
  simp only
  unfold DNSQuestion.fromRaw
  simp only
  rw [show pre.length + (DomainName.toBytes q.qname).length + 2 + 2 =
      pre.length + q.toBytes.length by
    simp [DNSQuestion.toBytes, u16be] <;> omega]

theorem questionsFromRaw_encode (qs : List DNSQuestion) :
    ∀ (pre post : List Nat) (fuel : Nat),
      (∀ q ∈ qs, WFquestion q) → (∀ q ∈ qs, q.qname.length < fuel) →
      DNSQuestion.fromRaw fuel
          (pre ++ qs.flatMap DNSQuestion.toBytes ++ post) pre.length
          qs.length =
        .ok (qs, pre.length + (qs.flatMap DNSQuestion.toBytes).length) := by
  induction qs with
  | nil =>
    intro pre post fuel _ _
    unfold DNSQuestion.fromRaw
    simp
  | cons q qs ih =>
    intro pre post fuel hwf hfl
    obtain ⟨hwn, ht16, hc16⟩ := hwf q (by simp)
    have e1 : pre ++ (q :: qs).flatMap DNSQuestion.toBytes ++ post =
        pre ++ DomainName.toBytes q.qname ++ (u16be q.qtype ++
          (u16be q.qclass ++ (qs.flatMap DNSQuestion.toBytes ++ post))) := by
      simp [DNSQuestion.toBytes]
    have l1 : (pre ++ DomainName.toBytes q.qname).length =
        pre.length + (DomainName.toBytes q.qname).length := by
      simp
    have l2 : ((pre ++ DomainName.toBytes q.qname) ++ u16be q.qtype).length =
        pre.length + (DomainName.toBytes q.qname).length + 2 := by
      simp [u16be]
      omega
    have l3 : (((pre ++ DomainName.toBytes q.qname) ++ u16be q.qtype) ++
        u16be q.qclass).length =
        pre.length + (DomainName.toBytes q.qname).length + 4 := by
      simp [u16be]
      omega
    show DNSQuestion.fromRaw fuel _ pre.length (qs.length + 1) = _
    unfold DNSQuestion.fromRaw
    rw [e1, readDomainName_encode q.qname pre _ fuel hwn (hfl q (by simp))]
    simp only
    rw [show pre.length + (DomainName.toBytes q.qname).length =
        (pre ++ DomainName.toBytes q.qname).length from l1.symm]
    rw [show pre ++ DomainName.toBytes q.qname ++ (u16be q.qtype ++
        (u16be q.qclass ++ (qs.flatMap DNSQuestion.toBytes ++ post))) =
        (pre ++ DomainName.toBytes q.qname) ++ u16be q.qtype ++
          (u16be q.qclass ++ (qs.flatMap DNSQuestion.toBytes ++ post)) by
      simp]
    rw [readU16_u16be, Nat.mod_eq_of_lt ht16, l1]
    simp only
    rw [show pre.length + (DomainName.toBytes q.qname).length + 2 =
        ((pre ++ DomainName.toBytes q.qname) ++ u16be q.qtype).length from
        (by rw [l2])]
    rw [show (pre ++ DomainName.toBytes q.qname) ++ u16be q.qtype ++
        (u16be q.qclass ++ (qs.flatMap DNSQuestion.toBytes ++ post)) =
        ((pre ++ DomainName.toBytes q.qname) ++ u16be q.qtype) ++
          u16be q.qclass ++ (qs.flatMap DNSQuestion.toBytes ++ post) by
      simp]
    rw [readU16_u16be, Nat.mod_eq_of_lt hc16, l2]
    simp only
    rw [show (((pre ++ DomainName.toBytes q.qname) ++ u16be q.qtype) ++
        u16be q.qclass ++ (qs.flatMap DNSQuestion.toBytes ++ post)) =
        (((pre ++ DomainName.toBytes q.qname) ++ u16be q.qtype) ++
          u16be q.qclass) ++ qs.flatMap DNSQuestion.toBytes ++ post by
      simp]
    rw [show pre.length + (DomainName.toBytes q.qname).length + 2 + 2 =
        (((pre ++ DomainName.toBytes q.qname) ++ u16be q.qtype) ++
          u16be q.qclass).length from (by rw [l3])]
    rw [ih (((pre ++ DomainName.toBytes q.qname) ++ u16be q.qtype) ++
      u16be q.qclass) post fuel (fun x hx => hwf x (by simp [hx]))
      (fun x hx => hfl x (by simp [hx])), l3]
    simp only
    rw [show pre.length + (DomainName.toBytes q.qname).length + 4 +
        (qs.flatMap DNSQuestion.toBytes).length =
        pre.length + ((q :: qs).flatMap DNSQuestion.toBytes).length by
      simp [DNSQuestion.toBytes, u16be] <;> omega]

theorem headerFromRaw_encode (h : DNSHeader) (qd an ns ar : Nat)
    (rest : List Nat) :
    ∃ h2 : DNSHeader, DNSHeader.fromRaw (h.toBytes qd an ns ar ++ rest) =
      some (h2, 12) ∧ h2.qdcount = qd % 2 ^ 16 ∧ h2.ancount = an % 2 ^ 16 ∧
      h2.nscount = ns % 2 ^ 16 ∧ h2.arcount = ar % 2 ^ 16 := by
  have hid : readU16 (h.toBytes qd an ns ar ++ rest) 0 =
      some (h.id % 2 ^ 16, 2) := by
    have e : h.toBytes qd an ns ar ++ rest =
        ([] : List Nat) ++ u16be h.id ++ ([h.byte2, h.byte3] ++
          (u16be qd ++ (u16be an ++ (u16be ns ++ (u16be ar ++ rest))))) := by
      simp [DNSHeader.toBytes]
    rw [e]
    exact readU16_u16be [] _ h.id
  have hb2 : readU8 (h.toBytes qd an ns ar ++ rest) 2 =
      some (h.byte2 % 256, 3) := by
    have e : h.toBytes qd an ns ar ++ rest =
        u16be h.id ++ h.byte2 :: (h.byte3 ::
          (u16be qd ++ (u16be an ++ (u16be ns ++ (u16be ar ++ rest))))) := by
      simp [DNSHeader.toBytes]
    rw [e, show (2 : Nat) = (u16be h.id).length from (by simp [u16be]),
      readU8_at]
    simp [u16be]
  have hb3 : readU8 (h.toBytes qd an ns ar ++ rest) 3 =
      some (h.byte3 % 256, 4) := by
    have e : h.toBytes qd an ns ar ++ rest =
        (u16be h.id ++ [h.byte2]) ++ h.byte3 ::
          (u16be qd ++ (u16be an ++ (u16be ns ++ (u16be ar ++ rest)))) := by
      simp [DNSHeader.toBytes]
    rw [e, show (3 : Nat) = (u16be h.id ++ [h.byte2]).length from
      (by simp [u16be]), readU8_at]
    simp [u16be]
  obtain ⟨hc4, hc6, hc8, hc10⟩ := counts_of_toBytes h qd an ns ar rest
  unfold DNSHeader.fromRaw
  rw [hid]
  simp only
  rw [hb2]
  simp only
  rw [hb3]
  simp only
  rw [hc4]
  simp only
  rw [hc6]
  simp only
  rw [hc8]
  simp only
  rw [hc10]
  simp only
  exact ⟨_, rfl, rfl, rfl, rfl, rfl⟩

theorem le_foldr_sum {α : Type} (w : α → Nat) :
    ∀ (l : List α) (x : α), x ∈ l →
      w x ≤ l.foldr (fun y acc => w y + acc) 0 := by
  intro l
  induction l with
  | nil => intro x hx; exact absurd hx (by simp)
  | cons a as ih =>
    intro x hx
    rcases List.mem_cons.mp hx with he | hm
    · subst he
      simp only [List.foldr_cons]
      exact Nat.le_add_right _ _
    · have := ih x hm
      simp only [List.foldr_cons]
      omega

theorem le_foldr_qsum (l : List DNSQuestion) (x : DNSQuestion) (hx : x ∈ l) :
    x.qname.length ≤ l.foldr (fun q acc => q.qname.length + acc) 0 := by
  induction l with
  | nil => exact absurd hx (by simp)
  | cons a as ih =>
    rcases List.mem_cons.mp hx with he | hm
    · subst he
      simp only [List.foldr_cons]
      exact Nat.le_add_right _ _
    · have := ih hm
      simp only [List.foldr_cons]
      omega

theorem le_foldr_rsum (l : List DNSResourceRecord) (x : DNSResourceRecord)
    (hx : x ∈ l) :
    rrNameLens x ≤ l.foldr (fun r acc => rrNameLens r + acc) 0 := by
  induction l with
  | nil => exact absurd hx (by simp)
  | cons a as ih =>
    rcases List.mem_cons.mp hx with he | hm
    · subst he
      simp only [List.foldr_cons]
      exact Nat.le_add_right _ _
    · have := ih hm
      simp only [List.foldr_cons]
      omega

theorem fromRaw_assemble (m : DNSPacket) (hwf : WFpacket m) :
    ∃ h2 : DNSHeader, DNSPacket.fromRaw (packetFuel m) m.assemble =
      .ok { header := h2, questions := m.questions,
            answers := m.answers.map reencRR,
            authorities := m.authorities.map reencRR,
            additionals := m.additionals.map reencRR } := by
  obtain ⟨hq16, ha16, hu16, hd16, hqw, haw, huw, hdw⟩ := hwf
  have hqf : ∀ q ∈ m.questions, q.qname.length < packetFuel m := by
    intro q hq
    have h1 := le_foldr_qsum m.questions q hq
    unfold packetFuel
    omega
  have haf : ∀ r ∈ m.answers, rrNameLens r < packetFuel m := by
    intro r hr
    have h1 := le_foldr_rsum
      (m.answers ++ m.authorities ++ m.additionals) r (by simp [hr])
    unfold packetFuel
    omega
  have huf : ∀ r ∈ m.authorities, rrNameLens r < packetFuel m := by
    intro r hr
    have h1 := le_foldr_rsum
      (m.answers ++ m.authorities ++ m.additionals) r (by simp [hr])
    unfold packetFuel
    omega
  have hdf : ∀ r ∈ m.additionals, rrNameLens r < packetFuel m := by
    intro r hr
    have h1 := le_foldr_rsum
      (m.answers ++ m.authorities ++ m.additionals) r (by simp [hr])
    unfold packetFuel
    omega
  obtain ⟨h2, hH, hqd, han, hns, har⟩ := headerFromRaw_encode m.header
    m.questions.length m.answers.length m.authorities.length
    m.additionals.length (m.questions.flatMap DNSQuestion.toBytes ++ (m.answers.flatMap DNSResourceRecord.toBytes ++ (m.authorities.flatMap DNSResourceRecord.toBytes ++ m.additionals.flatMap DNSResourceRecord.toBytes)))
  rw [Nat.mod_eq_of_lt hq16] at hqd
  rw [Nat.mod_eq_of_lt ha16] at han
  rw [Nat.mod_eq_of_lt hu16] at hns
  rw [Nat.mod_eq_of_lt hd16] at har
  have hbuf : m.assemble = m.header.toBytes m.questions.length m.answers.length m.authorities.length m.additionals.length ++ (m.questions.flatMap DNSQuestion.toBytes ++ (m.answers.flatMap DNSResourceRecord.toBytes ++ (m.authorities.flatMap DNSResourceRecord.toBytes ++ m.additionals.flatMap DNSResourceRecord.toBytes))) := by
    simp [DNSPacket.assemble]
  have lH : (m.header.toBytes m.questions.length m.answers.length m.authorities.length m.additionals.length).length = 12 := by
    simp [DNSHeader.toBytes, u16be]
  refine ⟨h2, ?_⟩
  unfold DNSPacket.fromRaw
  rw [hbuf, hH]
  simp only
  rw [hqd, show (12 : Nat) = (m.header.toBytes m.questions.length m.answers.length m.authorities.length m.additionals.length).length from lH.symm]
  rw [show m.header.toBytes m.questions.length m.answers.length m.authorities.length m.additionals.length ++ (m.questions.flatMap DNSQuestion.toBytes ++ (m.answers.flatMap DNSResourceRecord.toBytes ++ (m.authorities.flatMap DNSResourceRecord.toBytes ++ m.additionals.flatMap DNSResourceRecord.toBytes))) =
      m.header.toBytes m.questions.length m.answers.length m.authorities.length m.additionals.length ++ m.questions.flatMap DNSQuestion.toBytes ++ (m.answers.flatMap DNSResourceRecord.toBytes ++ (m.authorities.flatMap DNSResourceRecord.toBytes ++ m.additionals.flatMap DNSResourceRecord.toBytes)) by simp]
  rw [questionsFromRaw_encode m.questions (m.header.toBytes m.questions.length m.answers.length m.authorities.length m.additionals.length) (m.answers.flatMap DNSResourceRecord.toBytes ++ (m.authorities.flatMap DNSResourceRecord.toBytes ++ m.additionals.flatMap DNSResourceRecord.toBytes))
    (packetFuel m) hqw hqf]
  simp only
  rw [han, show (m.header.toBytes m.questions.length m.answers.length m.authorities.length m.additionals.length).length + (m.questions.flatMap DNSQuestion.toBytes).length = (m.header.toBytes m.questions.length m.answers.length m.authorities.length m.additionals.length ++ m.questions.flatMap DNSQuestion.toBytes).length by
    simp <;> omega]
  rw [show m.header.toBytes m.questions.length m.answers.length m.authorities.length m.additionals.length ++ m.questions.flatMap DNSQuestion.toBytes ++ (m.answers.flatMap DNSResourceRecord.toBytes ++ (m.authorities.flatMap DNSResourceRecord.toBytes ++ m.additionals.flatMap DNSResourceRecord.toBytes)) =
      (m.header.toBytes m.questions.length m.answers.length m.authorities.length m.additionals.length ++ m.questions.flatMap DNSQuestion.toBytes) ++ m.answers.flatMap DNSResourceRecord.toBytes ++ (m.authorities.flatMap DNSResourceRecord.toBytes ++ m.additionals.flatMap DNSResourceRecord.toBytes) by simp]
  rw [rrFromRawMulti_encode m.answers (m.header.toBytes m.questions.length m.answers.length m.authorities.length m.additionals.length ++ m.questions.flatMap DNSQuestion.toBytes) (m.authorities.flatMap DNSResourceRecord.toBytes ++ m.additionals.flatMap DNSResourceRecord.toBytes)
    (packetFuel m) haw haf]
  simp only
  rw [hns, show (m.header.toBytes m.questions.length m.answers.length m.authorities.length m.additionals.length ++ m.questions.flatMap DNSQuestion.toBytes).length + (m.answers.flatMap DNSResourceRecord.toBytes).length =
      ((m.header.toBytes m.questions.length m.answers.length m.authorities.length m.additionals.length ++ m.questions.flatMap DNSQuestion.toBytes) ++ m.answers.flatMap DNSResourceRecord.toBytes).length by simp <;> omega]
  rw [show (m.header.toBytes m.questions.length m.answers.length m.authorities.length m.additionals.length ++ m.questions.flatMap DNSQuestion.toBytes) ++ m.answers.flatMap DNSResourceRecord.toBytes ++ (m.authorities.flatMap DNSResourceRecord.toBytes ++ m.additionals.flatMap DNSResourceRecord.toBytes) =
      ((m.header.toBytes m.questions.length m.answers.length m.authorities.length m.additionals.length ++ m.questions.flatMap DNSQuestion.toBytes) ++ m.answers.flatMap DNSResourceRecord.toBytes) ++ m.authorities.flatMap DNSResourceRecord.toBytes ++ m.additionals.flatMap DNSResourceRecord.toBytes by simp]
  rw [rrFromRawMulti_encode m.authorities ((m.header.toBytes m.questions.length m.answers.length m.authorities.length m.additionals.length ++ m.questions.flatMap DNSQuestion.toBytes) ++ m.answers.flatMap DNSResourceRecord.toBytes) (m.additionals.flatMap DNSResourceRecord.toBytes)
    (packetFuel m) huw huf]
  simp only
  rw [har, show ((m.header.toBytes m.questions.length m.answers.length m.authorities.length m.additionals.length ++ m.questions.flatMap DNSQuestion.toBytes) ++ m.answers.flatMap DNSResourceRecord.toBytes).length + (m.authorities.flatMap DNSResourceRecord.toBytes).length =
      (((m.header.toBytes m.questions.length m.answers.length m.authorities.length m.additionals.length ++ m.questions.flatMap DNSQuestion.toBytes) ++ m.answers.flatMap DNSResourceRecord.toBytes) ++ m.authorities.flatMap DNSResourceRecord.toBytes).length by simp <;> omega]
  rw [show ((m.header.toBytes m.questions.length m.answers.length m.authorities.length m.additionals.length ++ m.questions.flatMap DNSQuestion.toBytes) ++ m.answers.flatMap DNSResourceRecord.toBytes) ++ m.authorities.flatMap DNSResourceRecord.toBytes ++ m.additionals.flatMap DNSResourceRecord.toBytes =
      (((m.header.toBytes m.questions.length m.answers.length m.authorities.length m.additionals.length ++ m.questions.flatMap DNSQuestion.toBytes) ++ m.answers.flatMap DNSResourceRecord.toBytes) ++ m.authorities.flatMap DNSResourceRecord.toBytes) ++ m.additionals.flatMap DNSResourceRecord.toBytes ++ [] by simp]
  rw [rrFromRawMulti_encode m.additionals (((m.header.toBytes m.questions.length m.answers.length m.authorities.length m.additionals.length ++ m.questions.flatMap DNSQuestion.toBytes) ++ m.answers.flatMap DNSResourceRecord.toBytes) ++ m.authorities.flatMap DNSResourceRecord.toBytes)
    [] (packetFuel m) hdw hdf]

theorem forall2_recSemEq_map (rs : List DNSResourceRecord) :
    List.Forall₂ recSemEq rs (rs.map reencRR) := by
  induction rs with
  | nil => exact List.Forall₂.nil
  | cons r rest ih => exact List.Forall₂.cons ⟨rfl, rfl, rfl, rfl, rfl⟩ ih

/-- C3: every message the decoder can parse survives a re-encode/decode
round trip.  If `DNSPacket::from_raw` yields `m` (at any fuel), then
`from_raw(m.assemble())` succeeds and the result carries exactly the same
questions and, in each record section, records with the same owner name,
wire type, class, TTL and rdata payload (compression is gone from the
re-encoded bytes, and the `tc` flag — dropped by the encoder — plays no
part in this equality). -/
theorem c3_round_trip (fuel : Nat) (buf : List Nat) (m : DNSPacket)
    (h : DNSPacket.fromRaw fuel buf = .ok m) :
    ∃ (fuel2 : Nat) (m2 : DNSPacket),
      DNSPacket.fromRaw fuel2 m.assemble = .ok m2 ∧
      m2.questions = m.questions ∧
      List.Forall₂ recSemEq m.answers m2.answers ∧
      List.Forall₂ recSemEq m.authorities m2.authorities ∧
      List.Forall₂ recSemEq m.additionals m2.additionals := by
  obtain ⟨h2, hra⟩ := fromRaw_assemble m (fromRaw_wf h)
  exact ⟨packetFuel m, _, hra, rfl, forall2_recSemEq_map _,
    forall2_recSemEq_map _, forall2_recSemEq_map _⟩

/-- Witness for C3: the concrete 19-byte query `qbuf` decodes to
`pktQuery`, and the round trip holds for it. -/
theorem c3_round_trip_witness :
    ∃ (fuel2 : Nat) (m2 : DNSPacket),
      DNSPacket.fromRaw fuel2 pktQuery.assemble = .ok m2 ∧
      m2.questions = pktQuery.questions ∧
      List.Forall₂ recSemEq pktQuery.answers m2.answers ∧
      List.Forall₂ recSemEq pktQuery.authorities m2.authorities ∧
      List.Forall₂ recSemEq pktQuery.additionals m2.additionals :=
  c3_round_trip 2 qbuf pktQuery (by decide)
